import Mathlib

/-!
Verification development for the IPv4 route / next-hop subsystem of the
vyatta dataplane (`src/route.c`) and its console command dispatcher
(`src/commands.c`).

The C sources are shallowly embedded: machine integers become `Nat`/`Int`,
the next-hop slot array becomes a function `Nat → Option NextHopU`, the
urcu hash table becomes an association list from hash keys to slot
indices, and the FAL (hardware shadow) becomes an environment of statuses
plus an explicit call log.  The LPM trie implementation (`lpm/lpm.c`) is
not part of the sources, so it is modelled from the specification's
contract for it (§4.4): a table of scoped rules with longest-prefix
lookup, cover computation and subtree walks.
-/

set_option autoImplicit false

namespace Dataplane

/-! ### Basic constants (linux rtnetlink / errno values) -/

def RT_TABLE_UNSPEC : Nat := 0
def RT_TABLE_MAIN : Nat := 254
def RT_TABLE_LOCAL : Nat := 255

def RT_SCOPE_UNIVERSE : Int := 0
def RT_SCOPE_LINK : Int := 253
def RT_SCOPE_HOST : Int := 254

/-- Modelled from the spec: `LPM_SCOPE_PAN_DIMENSIONAL` comes from the
missing `lpm/lpm.h`; the spec calls it "a pseudo-scope", so it is given a
value outside the 8-bit netlink scope range. -/
def LPM_SCOPE_PAN_DIMENSIONAL : Int := 256

def ENOENT : Int := 2
def ENOMEM : Int := 12
def EEXIST : Int := 17
def ENOSPC : Int := 28
def EOPNOTSUPP : Int := 95

def RTPROT_UNSPEC : Nat := 0

/-- `NEXTHOP_HASH_TBL_SIZE` = `RTE_FBK_HASH_ENTRIES_MAX` = 2^20. -/
def NEXTHOP_HASH_TBL_SIZE : Nat := 2 ^ 20

/-! ### Route flags and next-hop siblings

The RTF_* flag word of `struct next_hop` is embedded as a record of
booleans (the numeric bit positions live in the missing `route.h`; only
membership matters to `route.c`). -/

structure Flags where
  gateway : Bool := false
  localFlag : Bool := false
  blackhole : Bool := false
  reject : Bool := false
  slowpath : Bool := false
  noroute : Bool := false
  broadcast : Bool := false
  dead : Bool := false
  neighPresent : Bool := false
  neighCreated : Bool := false
deriving DecidableEq, Repr

/-- An ARP / neighbour entry (`struct llentry`): its IPv4 address and the
index of the interface it lives on. -/
structure Llentry where
  addr : Nat
  ifindex : Nat
deriving DecidableEq, Repr

/-- One path of a next-hop group (`struct next_hop`).  The C union
`u.{ifp,lle}` is split into the interface index and an optional linked
neighbour entry; which one is live is decided by the
NEIGH_PRESENT/NEIGH_CREATED flags, as in `nh4_get_ifp`. -/
structure NextHop where
  gateway : Nat := 0
  flags : Flags := {}
  ifp : Option Nat := none
  lle : Option Llentry := none
  outlabels : List Nat := []
deriving DecidableEq, Repr

/-- Modelled from the spec: the accessor `nh4_get_ifp` lives in the
missing `route.h`; per §3 the sibling's target is the neighbour's
interface when a neighbour link is present, the plain interface
otherwise. -/
def nh4_get_ifp (nh : NextHop) : Option Nat :=
  if nh.flags.neighPresent ∨ nh.flags.neighCreated then nh.lle.map (·.ifindex)
  else nh.ifp

def nh4_is_neigh_present (nh : NextHop) : Bool := nh.flags.neighPresent

def nh4_is_neigh_created (nh : NextHop) : Bool := nh.flags.neighCreated

/-- `nh_is_connected` from route.c. -/
def nh_is_connected (nh : NextHop) : Bool :=
  ¬ (nh.flags.blackhole ∨ nh.flags.reject ∨ nh.flags.slowpath ∨
     nh.flags.gateway ∨ nh.flags.localFlag ∨ nh.flags.noroute)

def nh_is_local (nh : NextHop) : Bool := nh.flags.localFlag

def nh_is_gw (nh : NextHop) : Bool := nh.flags.gateway

/-! ### Hardware shadow (FAL) -/

/-- Platform-dependent object state (`enum pd_obj_state`; `pd_show.h` is
absent from the sources, the four states come from the spec §4.3/§4.11).
`Full` is the zero/calloc-default state. -/
inductive PdObjState where
  | Full
  | NotNeeded
  | NoResource
  | Error
deriving DecidableEq, Repr

/-- Modelled from the spec (§4.11): status → pd-state mapping of the
missing `fal_state_to_pd_state`: 0 → FULL, "unsupported" → NOT_NEEDED,
"no resource" → NO_RESOURCE, anything else → ERROR. -/
def fal_state_to_pd_state (rc : Int) : PdObjState :=
  if rc = 0 then .Full
  else if rc = -EOPNOTSUPP then .NotNeeded
  else if rc = -ENOSPC ∨ rc = -ENOMEM then .NoResource
  else .Error

/-- A record of one call into the FAL façade, so that theorems can state
which hardware operations an operation did (or did not) perform. -/
inductive FalCall where
  | newNextHops (sibs : List NextHop)
  | delNextHops (obj : Nat)
  | newRoute (ip depth : Nat) (sibs : List NextHop)
  | updRoute (ip depth : Nat) (sibs : List NextHop)
  | delRoute (ip depth : Nat)
deriving DecidableEq, Repr

/-- The FAL backend, abstracted: the status each kind of call returns and
the object handles a next-hop-group creation hands back. -/
structure FalEnv where
  newNextHopsStatus : Int := 0
  delNextHopsStatus : Int := 0
  newRouteStatus : Int := 0
  updRouteStatus : Int := 0
  delRouteStatus : Int := 0
  nhgObj : Nat := 0
  nhObj : Nat := 0
deriving Repr

/-! ### Next-hop groups and the next-hop table -/

/-- A next-hop group (`struct next_hop_u`). -/
structure NextHopU where
  siblings : List NextHop
  proto : Nat
  index : Nat
  refcount : Nat
  pdState : PdObjState
  nhgFal : Nat
  nhFal : List Nat
deriving DecidableEq, Repr

def NextHopU.nsiblings (g : NextHopU) : Nat := g.siblings.length

/-- `nextu_nc_count`. -/
def nextu_nc_count (g : NextHopU) : Nat :=
  (g.siblings.filter (fun nh => nh4_is_neigh_created nh)).length

/-- `nextu_is_any_connected`. -/
def nextu_is_any_connected (g : NextHopU) : Bool :=
  g.siblings.any (fun nh => nh_is_connected nh)

/-- `nextu_find_path_using_ifp`: the first sibling whose egress interface
is `ifp`, together with its position. -/
def nextu_find_path_using_ifp (g : NextHopU) (ifp : Nat) :
    Option (NextHop × Nat) :=
  (g.siblings.enum.find? (fun p => decide (nh4_get_ifp p.2 = some ifp))).map
    (fun p => (p.2, p.1))

/-- The per-sibling part of the intern hash key:
{ifindex, gateway, flags ∩ NH_FLAGS_CMP_MASK, label stack}.
`NH_FLAGS_CMP_MASK` is in the missing `route.h`; per the spec §4.3 it
excludes the runtime-transient flags NEIGH_PRESENT, NEIGH_CREATED and
DEAD, which is expressed here by clearing those fields. -/
structure NhSibKey where
  ifp : Option Nat
  gateway : Nat
  cmpFlags : Flags
  outlabels : List Nat
deriving DecidableEq, Repr

def cmpMaskFlags (f : Flags) : Flags :=
  { f with neighPresent := false, neighCreated := false, dead := false }

def keyOfSib (nh : NextHop) : NhSibKey :=
  ⟨nh4_get_ifp nh, nh.gateway, cmpMaskFlags nh.flags, nh.outlabels⟩

/-- The full intern hash key (`struct nexthop_hash_key`, compared with
`nexthop_cmpfn`). -/
structure NhKey where
  proto : Nat
  sibs : List NhSibKey
deriving DecidableEq, Repr

def nhKeyOfList (proto : Nat) (sibs : List NextHop) : NhKey :=
  ⟨proto, sibs.map keyOfSib⟩

def NextHopU.key (g : NextHopU) : NhKey := nhKeyOfList g.proto g.siblings

/-- `struct nexthop_table` plus the `nexthop_hash` urcu table.  The hash
is an association list from intern keys to slot indices (in C the hash
nodes are the groups themselves; the slot array is the source of truth
here). -/
structure NhTable where
  entry : Nat → Option NextHopU
  inUse : Nat
  rover : Nat
  hash : List (NhKey × Nat)
  neighPresent : Int
  neighCreated : Int

def NhTable.empty : NhTable :=
  { entry := fun _ => none, inUse := 0, rover := 0, hash := [],
    neighPresent := 0, neighCreated := 0 }

/-- `nexthop_lookup`: find a group with this key in the hash. -/
def nexthop_lookup (s : NhTable) (k : NhKey) : Option Nat :=
  (s.hash.find? (fun p => decide (p.1 = k))).map (·.2)

/-- The rover scan of `nexthop_new`: starting after `rover`, advance
(wrapping at the table size) until an empty slot is found or the scan is
back at `rover`. -/
def roverScanGo (entry : Nat → Option NextHopU) (rover : Nat) :
    Nat → Nat → Nat
  | 0, iter => iter
  | fuel + 1, iter =>
    let it2 := if iter + 1 ≥ NEXTHOP_HASH_TBL_SIZE then 0 else iter + 1
    if entry it2 = none ∨ it2 = rover then it2
    else roverScanGo entry rover fuel it2

def roverScan (entry : Nat → Option NextHopU) (rover : Nat) : Nat :=
  roverScanGo entry rover NEXTHOP_HASH_TBL_SIZE rover

/-- Result of `nexthop_new`: return code, the slot written through the
`slot` out-parameter, the new table, and the FAL calls made. -/
structure NewResult where
  rc : Int
  slot : Nat
  tbl : NhTable
  calls : List FalCall

/-- `nexthop_new` (route.c): reuse an existing group with an equal key
(bumping its refcount), otherwise allocate a fresh slot at the rover,
insert into the hash, create the FAL next-hop-group and publish. -/
def nexthop_new (fal : FalEnv) (nh : List NextHop) (proto : Nat)
    (s : NhTable) : NewResult :=
  let key := nhKeyOfList proto nh
  match nexthop_lookup s key with
  | some idx =>
    -- nexthop_reuse: ++nu->refcount
    let e := Function.update s.entry idx
      ((s.entry idx).map (fun g => { g with refcount := g.refcount + 1 }))
    { rc := 0, slot := idx, tbl := { s with entry := e }, calls := [] }
  | none =>
    if s.inUse = NEXTHOP_HASH_TBL_SIZE then
      { rc := -ENOSPC, slot := 0, tbl := s, calls := [] }
    else
      -- nexthop_hash_insert uses cds_lfht_add_unique: EEXIST if the key
      -- is already present (dead branch right after a failed lookup).
      if s.hash.any (fun p => decide (p.1 = key)) then
        { rc := -ENOMEM, slot := 0, tbl := s, calls := [] }
      else
        let pd := fal_state_to_pd_state fal.newNextHopsStatus
        let g : NextHopU :=
          { siblings := nh, proto := proto, index := s.rover, refcount := 1,
            pdState := pd, nhgFal := fal.nhgObj,
            nhFal := List.replicate nh.length fal.nhObj }
        let iter := roverScan s.entry s.rover
        { rc := 0, slot := s.rover,
          tbl := { s with
                   entry := Function.update s.entry s.rover (some g),
                   rover := iter, inUse := s.inUse + 1,
                   hash := (key, s.rover) :: s.hash },
          calls := [FalCall.newNextHops nh] }

/-- `nexthop_put`: drop one reference; on the last one clear the slot,
fix the neigh counters, delete the FAL group (when fully offloaded) and
remove the group from the hash. -/
def nexthop_put (idx : Nat) (s : NhTable) : NhTable × List FalCall :=
  match s.entry idx with
  | none => (s, [])  -- C dereferences the slot; callers guarantee presence
  | some g =>
    if g.refcount - 1 = 0 then
      let np := ((g.siblings.filter (fun nh => nh4_is_neigh_present nh)).length : Int)
      let nc := ((g.siblings.filter (fun nh => nh4_is_neigh_created nh)).length : Int)
      ({ s with entry := Function.update s.entry idx none,
                inUse := s.inUse - 1,
                neighPresent := s.neighPresent - np,
                neighCreated := s.neighCreated - nc,
                hash := s.hash.filter (fun p => decide (p.2 ≠ idx)) },
       if g.pdState = .Full then [FalCall.delNextHops g.nhgFal] else [])
    else
      ({ s with entry := Function.update s.entry idx
                  (some { g with refcount := g.refcount - 1 }) }, [])

/-! ### ECMP sibling selection -/

/-- Modelled from the spec (§4.3): `ecmp_lookup` lives in the missing
`ecmp.h`; the spec says the path index is the hash reduced modulo the
(capped) size. -/
def ecmp_lookup (size hash : Nat) : Nat := hash % size

/-- The retry loop of `nexthop_mp_select`:
`for (path = 0; path < size; path++) if (!(next[path].flags & RTF_DEAD)) break;`
returning the first non-DEAD sibling, or none if the loop falls off.
The remaining iteration count `size - path` is the structural fuel. -/
def mpRetryGo (next : List NextHop) : Nat → Nat → Option NextHop
  | 0, _ => none
  | fuel + 1, path =>
    match next[path]? with
    | none => none  -- cannot happen when size ≤ next.length
    | some nh =>
      if nh.flags.dead then mpRetryGo next fuel (path + 1) else some nh

/-- `nexthop_mp_select`: cap the size at `ecmp_max_path` (0 means no
cap), pick the hashed path, and if it is DEAD rescan from 0 (within the
capped size) for a live one. -/
def nexthop_mp_select (ecmpMaxPath : Nat) (next : List NextHop)
    (size hash : Nat) : Option NextHop :=
  let size := if ecmpMaxPath ≠ 0 ∧ ecmpMaxPath < size then ecmpMaxPath else size
  let path := ecmp_lookup size hash
  match next[path]? with
  | none => none
  | some nh =>
    if nh.flags.dead then mpRetryGo next size 0 else some nh

/-- `nexthop_select`: index into the slot array; `none` for an empty
slot; single-sibling groups short-circuit.  The mbuf and ether-type only
feed the 5-tuple hash (`ecmp_mbuf_hash`, missing `ecmp.h`), so the packet
is represented by its hash value. -/
def nexthop_select (ecmpMaxPath : Nat) (s : NhTable) (nhIdx hash : Nat) :
    Option NextHop :=
  match s.entry nhIdx with
  | none => none
  | some g =>
    if g.siblings.length = 1 then g.siblings[0]?
    else nexthop_mp_select ecmpMaxPath g.siblings g.siblings.length hash

/-! ### The LPM table

`lpm/lpm.c` is not among the sources; the table of scoped rules and its
operations are modelled from the spec's contract (§4.4): rules keyed by
(prefix, depth, scope); at most one scope per prefix is active (the
highest); `add`/`delete` report scope shadowing/promotion; `find_cover`
returns the most-specific strictly-shorter matching prefix;
`subtree_walk` iterates the rules under a prefix in depth order. -/

structure LpmRule where
  ip : Nat
  depth : Nat
  scope : Int
  nh : Nat
  pdState : PdObjState := .Full
  created : Bool := false
deriving DecidableEq, Repr

structure Lpm where
  id : Nat
  rules : List LpmRule
deriving DecidableEq, Repr

/-- Does the `depth`-bit prefix of `ip` match `key`? -/
def prefixMatch (ip depth key : Nat) : Bool :=
  decide (key / 2 ^ (32 - depth) = ip / 2 ^ (32 - depth))

/-- A rule is active when no rule at the same prefix has a higher scope. -/
def ruleActive (lpm : Lpm) (r : LpmRule) : Bool :=
  lpm.rules.all (fun q => ¬ (q.ip = r.ip ∧ q.depth = r.depth ∧ q.scope > r.scope))

/-- Pick the rule of greatest depth from a candidate list. -/
def bestByDepth (l : List LpmRule) : Option LpmRule :=
  l.foldl (fun best r =>
    match best with
    | none => some r
    | some b => if r.depth > b.depth then some r else some b) none

/-- Modelled from the spec: `lpm_lookup` — longest-prefix match among
active rules. -/
def lpm_lookup (lpm : Lpm) (key : Nat) : Option Nat :=
  (bestByDepth (lpm.rules.filter
    (fun r => prefixMatch r.ip r.depth key && ruleActive lpm r))).map (·.nh)

/-- Modelled from the spec: `lpm_lookup_exact` — the active rule at
exactly this prefix/depth. -/
def lpm_lookup_exact (lpm : Lpm) (ip depth : Nat) : Option Nat :=
  ((lpm.rules.filter
    (fun r => r.ip = ip ∧ r.depth = depth && ruleActive lpm r)).head?).map (·.nh)

/-- Modelled from the spec: `lpm_find_cover` — the most-specific active
rule whose prefix is strictly shorter than `depth` and matches `ip`. -/
def lpm_find_cover (lpm : Lpm) (ip depth : Nat) : Option (Nat × Nat × Nat) :=
  (bestByDepth (lpm.rules.filter
    (fun r => r.depth < depth && prefixMatch r.ip r.depth ip &&
              ruleActive lpm r))).map (fun r => (r.ip, r.depth, r.nh))

/-- Outcomes of the LPM mutation operations (`lpm/lpm.h`). -/
inductive LpmErr where
  | success
  | higherScopeExists
  | lowerScopeExists
  | alreadyExists
  | noExist
deriving DecidableEq, Repr

/-- The integer value `route_lpm_add`/`route_lpm_delete` hand back for an
outcome (the concrete positive codes are in the missing `lpm.h`; callers
only test the sign). -/
def LpmErr.toInt : LpmErr → Int
  | .success => 0
  | .higherScopeExists => 1
  | .lowerScopeExists => 2
  | .alreadyExists => 3
  | .noExist => -ENOENT

/-- Modelled from the spec: `lpm_add`.  Returns the outcome, the new
table, and — on a demotion — the previously-active rule. -/
def lpm_add (lpm : Lpm) (ip depth nh : Nat) (scope : Int) :
    LpmErr × Lpm × Option LpmRule :=
  let same := lpm.rules.filter (fun r => r.ip = ip ∧ r.depth = depth)
  if same.any (fun r => decide (r.scope = scope)) then
    (.alreadyExists,
     { lpm with rules := lpm.rules.map (fun r =>
         if r.ip = ip ∧ r.depth = depth ∧ r.scope = scope then { r with nh := nh }
         else r) }, none)
  else
    let newRule : LpmRule := { ip := ip, depth := depth, scope := scope, nh := nh,
                               pdState := .Full, created := false }
    let lpm' := { lpm with rules := newRule :: lpm.rules }
    if same.any (fun r => decide (r.scope > scope)) then
      (.higherScopeExists, lpm', none)
    else
      match same.foldl (fun best r =>
          match best with
          | none => some r
          | some b => if r.scope > b.scope then some r else some b) none with
      | some old => (.lowerScopeExists, lpm', some old)
      | none => (.success, lpm', none)

/-- Remove the first rule equal to `r` from the list. -/
def removeRule (rules : List LpmRule) (r : LpmRule) : List LpmRule :=
  rules.eraseP (fun q => decide (q = r))

/-- Modelled from the spec: `lpm_delete` of the rule at
(ip, depth, scope).  Returns the outcome, the new table, the deleted rule
and — on a promotion — the newly-active rule. -/
def lpm_delete (lpm : Lpm) (ip depth : Nat) (scope : Int) :
    LpmErr × Lpm × Option LpmRule × Option LpmRule :=
  match lpm.rules.find? (fun r =>
      r.ip = ip ∧ r.depth = depth && decide (r.scope = scope)) with
  | none => (.noExist, lpm, none, none)
  | some r =>
    let rest := { lpm with rules := removeRule lpm.rules r }
    let sameRest := rest.rules.filter (fun q => q.ip = ip ∧ q.depth = depth)
    if sameRest.any (fun q => decide (q.scope > r.scope)) then
      (.higherScopeExists, rest, some r, none)
    else
      match sameRest.foldl (fun best q =>
          match best with
          | none => some q
          | some b => if q.scope > b.scope then some q else some b) none with
      | some prom => (.lowerScopeExists, rest, some r, some prom)
      | none => (.success, rest, some r, none)

/-- Update the platform state recorded on the rule at (ip, depth, scope). -/
def lpmSetPd (lpm : Lpm) (ip depth : Nat) (scope : Int)
    (st : PdObjState) (created : Bool) : Lpm :=
  { lpm with rules := lpm.rules.map (fun r =>
      if r.ip = ip ∧ r.depth = depth ∧ r.scope = scope then
        { r with pdState := st, created := created }
      else r) }

/-- `lpm_rule_count`. -/
def lpm_rule_count (lpm : Lpm) : Nat := lpm.rules.length

/-! ### The FIB coordinator state

One VRF, one table: the claims under study all concern a single LPM plus
the process-wide next-hop table, statistics and neighbour tables. -/

structure RtState where
  nht : NhTable
  lpm : Lpm
  swStats : PdObjState → Int
  hwStats : PdObjState → Int
  lltables : Nat → List Llentry
  calls : List FalCall

def bumpStat (f : PdObjState → Int) (st : PdObjState) (d : Int) :
    PdObjState → Int :=
  Function.update f st (f st + d)

/-- `route_nexthop_new`: the wrapper that books failures into the
software statistics. -/
def route_nexthop_new (fal : FalEnv) (s : RtState) (nh : List NextHop)
    (proto : Nat) : Int × Nat × RtState :=
  let r := nexthop_new fal nh proto s.nht
  if r.rc ≥ 0 then
    (r.rc, r.slot, { s with nht := r.tbl, calls := s.calls ++ r.calls })
  else if r.rc = -ENOSPC then
    (r.rc, r.slot, { s with swStats := bumpStat s.swStats .NoResource 1 })
  else
    (r.rc, r.slot, { s with swStats := bumpStat s.swStats .Error 1 })

/-- `route_lpm_add` (route.c): mutate the LPM, keep the software
statistics, and mirror the change into the FAL, recording the FAL's
verdict in the rule's pd-state and the hardware statistics.  A FAL
failure never undoes the software change. -/
def route_lpm_add (fal : FalEnv) (s : RtState) (ip depth nhIdx : Nat)
    (scope : Int) : Int × RtState :=
  match s.nht.entry nhIdx with
  | none => (-ENOENT, s)  -- C dereferences the slot; callers guarantee presence
  | some nextu =>
    match lpm_add s.lpm ip depth nhIdx scope with
    | (.noExist, _, _) => (-ENOENT, s)  -- not produced by lpm_add
    | (.alreadyExists, lpm', _) => (0, { s with lpm := lpm' })
    | (.higherScopeExists, lpm', _) =>
      (LpmErr.higherScopeExists.toInt,
       { s with lpm := lpmSetPd lpm' ip depth scope .NotNeeded false,
                swStats := bumpStat s.swStats .NotNeeded 1 })
    | (.lowerScopeExists, lpm', oldRule) =>
      -- demoted: hardware gets an update (or a create if the demoted
      -- rule had never been created), the demoted rule becomes NOT_NEEDED
      let updatePd := nextu.pdState = PdObjState.Full
      let sibs := if updatePd then nextu.siblings else []  -- nextu_blackhole
      let old := oldRule.getD { ip := ip, depth := depth, scope := scope, nh := 0 }
      let rc := if old.created then fal.updRouteStatus else fal.newRouteStatus
      let call := if old.created then FalCall.updRoute ip depth sibs
                  else FalCall.newRoute ip depth sibs
      let st := if updatePd then fal_state_to_pd_state rc else nextu.pdState
      let created := rc = 0 ∨ old.created
      let lpm2 := lpmSetPd (lpmSetPd lpm' ip depth scope st created)
                    ip depth old.scope .NotNeeded old.created
      (0, { s with lpm := lpm2,
                   swStats := bumpStat s.swStats .NotNeeded 1,
                   hwStats := bumpStat (bumpStat s.hwStats old.pdState (-1)) st 1,
                   calls := s.calls ++ [call] })
    | (.success, lpm', _) =>
      let updatePd := nextu.pdState = PdObjState.Full
      let sibs := if updatePd then nextu.siblings else []  -- nextu_blackhole
      let rc := fal.newRouteStatus
      let st := if updatePd then fal_state_to_pd_state rc else nextu.pdState
      let created := rc = 0
      (0, { s with lpm := lpmSetPd lpm' ip depth scope st created,
                   swStats := bumpStat s.swStats .Full 1,
                   hwStats := bumpStat s.hwStats st 1,
                   calls := s.calls ++ [FalCall.newRoute ip depth sibs] })

/-- `route_lpm_delete` (route.c).  Returns the C return code, the deleted
rule's next-hop index (the `*next_hop` out-parameter) and the new state. -/
def route_lpm_delete (fal : FalEnv) (s : RtState) (ip depth : Nat)
    (scope : Int) : Int × Option Nat × RtState :=
  match lpm_delete s.lpm ip depth scope with
  | (.higherScopeExists, lpm', some r, _) =>
    (LpmErr.higherScopeExists.toInt, some r.nh,
     { s with lpm := lpm', swStats := bumpStat s.swStats .NotNeeded (-1) })
  | (.lowerScopeExists, lpm', some r, some prom) =>
    -- promoted: the newly-active rule is pushed to the hardware
    let s1 := { s with swStats := bumpStat s.swStats .NotNeeded (-1) }
    (match s.nht.entry prom.nh with
     | none => (0, some r.nh, { s1 with lpm := lpm' })  -- C dereferences; unreachable
     | some nextu =>
       let updatePd := nextu.pdState = PdObjState.Full
       let sibs := if updatePd then nextu.siblings else []  -- nextu_blackhole
       let rc := if r.created then fal.updRouteStatus else fal.newRouteStatus
       let call := if r.created then FalCall.updRoute ip depth sibs
                   else FalCall.newRoute ip depth sibs
       let st := if updatePd then fal_state_to_pd_state rc else nextu.pdState
       let created := rc = 0 ∨ r.created
       (0, some r.nh,
        { s1 with lpm := lpmSetPd lpm' ip depth prom.scope st created,
                  hwStats := bumpStat (bumpStat s.hwStats r.pdState (-1)) st 1,
                  calls := s.calls ++ [call] }))
  | (.success, lpm', some r, _) =>
    let s1 := { s with swStats := bumpStat s.swStats .Full (-1), lpm := lpm' }
    if r.created then
      let rc := fal.delRouteStatus
      (0, some r.nh,
       { s1 with hwStats := if rc = 0 then bumpStat s.hwStats r.pdState (-1)
                            else s.hwStats,
                 calls := s.calls ++ [FalCall.delRoute ip depth] })
    else
      (0, some r.nh, { s1 with hwStats := bumpStat s.hwStats r.pdState (-1) })
  | (_, _, _, _) => (-ENOENT, none, s)

/-! ### Replace-in-place of a next-hop group (`route_nh_replace`) -/

/-- `enum nh_change`. -/
inductive NhChange where
  | noChange
  | setNeighCreated
  | clearNeighCreated
  | setNeighPresent
  | clearNeighPresent
  | del
deriving DecidableEq, Repr

/-- Apply one `nh4_set_*`/`nh4_clear_*` mutation to a copied sibling.
Clearing restores the plain interface from the neighbour
(`next_hop->u.ifp = next_hop->u.lle->ifp`). -/
def applyNhChange (lle : Option Llentry) (c : NhChange) (nh : NextHop) :
    NextHop :=
  match c with
  | .noChange => nh
  | .setNeighCreated =>
    { nh with flags := { nh.flags with neighCreated := true }, lle := lle }
  | .clearNeighCreated =>
    { nh with flags := { nh.flags with neighCreated := false },
              ifp := match nh.lle with | some l => some l.ifindex | none => nh.ifp,
              lle := none }
  | .setNeighPresent =>
    { nh with flags := { nh.flags with neighPresent := true }, lle := lle }
  | .clearNeighPresent =>
    { nh with flags := { nh.flags with neighPresent := false },
              ifp := match nh.lle with | some l => some l.ifindex | none => nh.ifp,
              lle := none }
  | .del => nh

/-- Effect of a mutation on the table-wide NEIGH_PRESENT counter. -/
def npDelta : NhChange → Int
  | .setNeighPresent => 1
  | .clearNeighPresent => -1
  | _ => 0

/-- Effect of a mutation on the table-wide NEIGH_CREATED counter. -/
def ncDelta : NhChange → Int
  | .setNeighCreated => 1
  | .clearNeighCreated => -1
  | _ => 0

structure ReplaceAcc where
  newSibs : List NextHop := []
  anyChange : Bool := false
  deleted : Nat := 0
  np : Int := 0
  nc : Int := 0
  failed : Bool := false
deriving Repr

/-- The copy loop of `route_nh_replace`: copy each sibling, applying the
callback's mutation; an NH_DELETE when the caller supplied no
`new_nextu_idx_for_del` aborts with -1. -/
def replaceLoop (lle : Option Llentry) (cb : NextHop → Nat → NhChange)
    (allowDelete : Bool) : List NextHop → Nat → ReplaceAcc → ReplaceAcc
  | [], _, acc => acc
  | nh :: rest, i, acc =>
    match _hc : cb nh i with
    | .del =>
      if allowDelete then
        replaceLoop lle cb allowDelete rest (i + 1)
          { acc with anyChange := true, deleted := acc.deleted + 1 }
      else { acc with failed := true }
    | c =>
      replaceLoop lle cb allowDelete rest (i + 1)
        { acc with newSibs := acc.newSibs ++ [applyNhChange lle c nh],
                   anyChange := acc.anyChange || decide (c ≠ .noChange),
                   np := acc.np + npDelta c, nc := acc.nc + ncDelta c }

/-- `route_nh_replace`: rebuild the group applying the callback to each
sibling, and publish the replacement at the same slot, with hash key
moved (`nexthop_hash_del_add`) and the FAL handles copied without any
hardware notification.  Returns (return value, `*new_nextu_idx_for_del`,
state). -/
def route_nh_replace (fal : FalEnv) (s : RtState) (nhIdx : Nat)
    (lle : Option Llentry) (allowDelete : Bool)
    (cb : NextHop → Nat → NhChange) : Int × Option Nat × RtState :=
  match s.nht.entry nhIdx with
  | none => (0, none, s)  -- callers read the group from the slot first
  | some nextu =>
    let acc := replaceLoop lle cb allowDelete nextu.siblings 0 {}
    let sCtr := { s with nht := { s.nht with
        neighPresent := s.nht.neighPresent + acc.np,
        neighCreated := s.nht.neighCreated + acc.nc } }
    if acc.failed then (-1, none, sCtr)
    else if ¬ acc.anyChange then (0, none, s)
    else if acc.deleted ≠ 0 then
      -- at least one path deleted: intern a new group for the caller
      if acc.deleted = nextu.siblings.length then ((acc.deleted : Int), none, sCtr)
      else
        let (rc, slot, s') := route_nexthop_new fal sCtr nextu.siblings nextu.proto
        if rc < 0 then ((nextu.siblings.length : Int), none, s')
        else ((acc.deleted : Int), some slot, s')
    else
      -- nexthop_hash_del_add: remove the old node, add the new key
      let newKey := nhKeyOfList nextu.proto acc.newSibs
      let hash' := s.nht.hash.filter (fun p => decide (p.2 ≠ nhIdx))
      if hash'.any (fun p => decide (p.1 = newKey)) then (0, none, sCtr)
      else
        -- the FAL objects are copied over without notifications
        let g' : NextHopU :=
          { siblings := acc.newSibs, proto := nextu.proto,
            index := nextu.index, refcount := nextu.refcount,
            pdState := .Full,  -- calloc zero-init of the replacement
            nhgFal := nextu.nhgFal, nhFal := nextu.nhFal }
        (0, none, { sCtr with nht := { sCtr.nht with
            entry := Function.update s.nht.entry nhIdx (some g'),
            hash := (newKey, nhIdx) :: hash' } })

/-! ### Linking neighbours into routes (the arp machinery) -/

/-- `in_lltable_find`: the neighbour on interface `ifp` with this
address. -/
def in_lltable_find (s : RtState) (ifp addr : Nat) : Option Llentry :=
  (s.lltables ifp).find? (fun l => decide (l.addr = addr))

/-- `routing_arp_add_gw_nh_replace_cb`: on an arp add, set NEIGH_PRESENT
on gateway hops out of this interface with this gateway address. -/
def routing_arp_add_gw_nh_replace_cb (lle : Llentry) (nh : NextHop) :
    NhChange :=
  if ¬ nh_is_gw nh ∨ nh.gateway ≠ lle.addr then .noChange
  else if nh4_get_ifp nh ≠ some lle.ifindex then .noChange
  else if nh_is_local nh ∨ nh4_is_neigh_present nh ∨ nh4_is_neigh_created nh
  then .noChange
  else .setNeighPresent

/-- `routing_arp_add_nh_replace_cb`: on an arp add against an existing
/32, mark the connected path NEIGH_PRESENT, or NEIGH_CREATED when the
group already has NEIGH_CREATED paths (`count`). -/
def routing_arp_add_nh_replace_cb (ifp count : Nat) (nh : NextHop) :
    NhChange :=
  if ¬ nh_is_connected nh then .noChange
  else if nh4_is_neigh_present nh ∨ nh4_is_neigh_created nh then .noChange
  else if some ifp ≠ nh4_get_ifp nh then .noChange
  else if count ≠ 0 then .setNeighCreated
  else .setNeighPresent

/-- The per-sibling body of `route_change_process_nh`, iterating over the
group's siblings; the group is re-read from the slot after each replace
and the walk stops if the slot emptied. -/
def route_change_process_nh_go (fal : FalEnv) (idx : Nat) :
    List NextHop → RtState → RtState
  | [], s => s
  | nh :: rest, s =>
    match nh4_get_ifp nh with
    | none => route_change_process_nh_go fal idx rest s
    | some ifp =>
      if ¬ nh_is_gw nh then route_change_process_nh_go fal idx rest s
      else
        match in_lltable_find s ifp nh.gateway with
        | none => route_change_process_nh_go fal idx rest s
        | some lle =>
          let r := route_nh_replace fal s idx (some lle) false
                     (fun n _ => routing_arp_add_gw_nh_replace_cb lle n)
          match r.2.2.nht.entry idx with
          | none => r.2.2
          | some _ => route_change_process_nh_go fal idx rest r.2.2

def route_change_process_nh (fal : FalEnv) (s : RtState) (idx : Nat) :
    RtState :=
  match s.nht.entry idx with
  | none => s
  | some g => route_change_process_nh_go fal idx g.siblings s

/-- `walk_nhs_for_route_change` with `routing_arp_add_gw_nh_replace_cb`:
walk every interned group and refresh NEIGH_PRESENT links. -/
def walk_nhs_for_route_change (fal : FalEnv) (s : RtState) : RtState :=
  (s.nht.hash.map (·.2)).foldl (fun st i => route_change_process_nh fal st i) s

/-- `walk_nhs_for_arp_change`. -/
def walk_nhs_for_arp_change (fal : FalEnv) (cb : NextHop → NhChange)
    (lle : Option Llentry) (s : RtState) : RtState :=
  (s.nht.hash.map (·.2)).foldl (fun st i =>
    (route_nh_replace fal st i lle false (fun n _ => cb n)).2.2) s

/-- `route_create_arp`: no /32 exists for the neighbour; if the cover of
its address has a (first-matching) connected path out of the neighbour's
interface, intern a copy of the cover's group with that path marked
NEIGH_CREATED (gateway set to the host address) and insert the /32 at
scope LINK. -/
def route_create_arp (fal : FalEnv) (s : RtState) (lle : Llentry) :
    RtState :=
  match lpm_lookup s.lpm lle.addr with
  | none => s
  | some nhIdx =>
    match s.nht.entry nhIdx with
    | none => s
    | some nextu =>
      match nextu_find_path_using_ifp nextu lle.ifindex with
      | none => s
      | some (coverNh, sibling) =>
        if nh_is_connected coverNh then
          -- nexthop_create_copy, nh4_set_neigh_created, gateway := ip
          let nh := nextu.siblings.mapIdx (fun i n =>
            if i = sibling then
              { n with flags := { n.flags with neighCreated := true },
                       lle := some lle, gateway := lle.addr }
            else n)
          let s1 := { s with nht :=
            { s.nht with neighCreated := s.nht.neighCreated + 1 } }
          let r := route_nexthop_new fal s1 nh RTPROT_UNSPEC
          if r.1 < 0 then r.2.2
          else (route_lpm_add fal r.2.2 lle.addr 32 r.2.1 RT_SCOPE_LINK).2
        else s

/-- `routing_insert_arp_safe`: refresh the /32 for a reported neighbour —
mark an existing /32's path NEIGH_PRESENT/NEIGH_CREATED, or create a /32
from a connected cover; on a real arp change also walk the gateway hops. -/
def routing_insert_arp_safe (fal : FalEnv) (s : RtState) (lle : Llentry)
    (arpChange : Bool) : RtState :=
  let s' :=
    match lpm_lookup_exact s.lpm lle.addr 32 with
    | some nhIdx =>
      match s.nht.entry nhIdx with
      | none => s
      | some nextu =>
        match nextu_find_path_using_ifp nextu lle.ifindex with
        | none => s
        | some _ =>
          (route_nh_replace fal s nhIdx (some lle) false
            (fun n _ => routing_arp_add_nh_replace_cb lle.ifindex
                          (nextu_nc_count nextu) n)).2.2
    | none => route_create_arp fal s lle
  if arpChange then
    walk_nhs_for_arp_change fal (routing_arp_add_gw_nh_replace_cb lle)
      (some lle) s'
  else s'

/-! ### Subtree cleanup and the link/unlink-arp steps -/

/-- `subtree_walk_route_cleanup_cb`: for a walked rule holding
NEIGH_CREATED paths, delete its /32 — unless the rule is not the
changing route itself and its immediate cover is not the changing
prefix. -/
def subtree_walk_route_cleanup_cb (fal : FalEnv)
    (changingIp changingDepth : Nat) (s : RtState)
    (maskedIp depth idx : Nat) : RtState :=
  match s.nht.entry idx with
  | none => s
  | some nextu =>
    if nextu_nc_count nextu = 0 then s
    else
      let proceed :=
        if maskedIp ≠ changingIp ∧ depth ≠ changingDepth then
          match lpm_find_cover s.lpm maskedIp depth with
          | none => false  -- assert(0): a walked rule always has a cover
          | some (cip, cdepth, _) => cip = changingIp ∧ cdepth = changingDepth
        else true
      if proceed then
        let r := route_lpm_delete fal s maskedIp 32 RT_SCOPE_LINK
        let p := nexthop_put idx r.2.2.nht
        { r.2.2 with nht := p.1, calls := r.2.2.calls ++ p.2 }
      else s

/-- The rules strictly under prefix (`ip`,`depth`), in depth order — the
visit set of `lpm_subtree_walk`. -/
def lpm_subtree_rules (lpm : Lpm) (ip depth : Nat) : List LpmRule :=
  (List.range 33).flatMap (fun d =>
    lpm.rules.filter (fun r =>
      r.depth = d && depth < r.depth && prefixMatch ip depth r.ip))

/-- Modelled from the spec: `lpm_subtree_walk` iterates the rules under a
prefix in depth order (the walked set is captured from the table at the
start of the walk). -/
def lpm_subtree_walk (s : RtState) (ip depth : Nat)
    (cb : RtState → Nat → Nat → Nat → RtState) : RtState :=
  (lpm_subtree_rules s.lpm ip depth).foldl
    (fun st r => cb st r.ip r.depth r.nh) s

/-- `route_change_link_arp`: after an insert, clean up stale
NEIGH_CREATED rules under the prefix (when the new group or its cover is
connected), then re-link neighbours on the egress interfaces and refresh
gateway hops. -/
def route_change_link_arp (fal : FalEnv) (s : RtState)
    (ip depth nhIdx : Nat) : RtState :=
  match s.nht.entry nhIdx with
  | none => s
  | some nextu =>
    let cb := subtree_walk_route_cleanup_cb fal ip depth
    let s1 :=
      if nextu_is_any_connected nextu then lpm_subtree_walk s ip depth cb
      else
        match lpm_find_cover s.lpm ip depth with
        | some (_, _, coverIdx) =>
          match s.nht.entry coverIdx with
          | some coverNextu =>
            if nextu_is_any_connected coverNextu then
              lpm_subtree_walk s ip depth cb
            else s
          | none => s
        | none => s
    let s2 := nextu.siblings.foldl (fun st nh =>
      match nh4_get_ifp nh with
      | none => st  -- happens for local routes
      | some ifp =>
        (st.lltables ifp).foldl
          (fun st2 lle => routing_insert_arp_safe fal st2 lle false) st) s1
    walk_nhs_for_route_change fal s2

/-- `route_delete_unlink_arp`: before a delete, clean up NEIGH_CREATED
rules under the departing prefix (including the prefix itself). -/
def route_delete_unlink_arp (fal : FalEnv) (s : RtState) (ip depth : Nat) :
    RtState :=
  match lpm_lookup_exact s.lpm ip depth with
  | none => s
  | some nhIdx =>
    match s.nht.entry nhIdx with
    | none => s
    | some nextu =>
      let cb := subtree_walk_route_cleanup_cb fal ip depth
      if nextu_is_any_connected nextu then
        lpm_subtree_walk (cb s ip depth nhIdx) ip depth cb
      else
        match lpm_find_cover s.lpm ip depth with
        | some (_, _, coverIdx) =>
          match s.nht.entry coverIdx with
          | some coverNextu =>
            if nextu_is_any_connected coverNextu then
              cb (lpm_subtree_walk s ip depth cb) ip depth nhIdx
            else s
          | none => s
        | none => s

/-- `route_delete_relink_arp`: after a delete, re-run the neighbour
insertion against the new cover's connected paths. -/
def route_delete_relink_arp (fal : FalEnv) (s : RtState) (ip depth : Nat) :
    RtState :=
  match lpm_find_cover s.lpm ip depth with
  | none => s
  | some (_, _, coverIdx) =>
    match s.nht.entry coverIdx with
    | none => s
    | some nextu =>
      let s1 := nextu.siblings.foldl (fun st nh =>
        match nh4_get_ifp nh with
        | none => st
        | some ifp =>
          if nh_is_connected nh then
            (st.lltables ifp).foldl
              (fun st2 lle => routing_insert_arp_safe fal st2 lle false) st
          else st) s
      walk_nhs_for_route_change fal s1

/-! ### Route insert / delete entry points -/

/-- `rt_lpm_is_empty`: only the reserved routes remain. -/
def rt_lpm_is_empty (lpm : Lpm) : Bool := lpm_rule_count lpm = 3

/-- `rt_insert`, over a single established table (the VRF/table creation
and reference counting of route.c is not modelled). -/
def rt_insert (fal : FalEnv) (s : RtState) (dst depth tableid : Nat)
    (scope : Int) (proto : Nat) (hops : List NextHop) (replace : Bool) :
    Int × RtState :=
  let tableid := if tableid = RT_TABLE_LOCAL then RT_TABLE_MAIN else tableid
  if tableid = RT_TABLE_UNSPEC then (-ENOENT, s)
  else
    -- /32 host-route signature: a non-GATEWAY hop gets its gateway set
    let hops := if depth = 32 then
        hops.map (fun h => if h.flags.gateway then h else { h with gateway := dst })
      else hops
    let r := route_nexthop_new fal s hops proto
    if r.1 < 0 then (r.1, r.2.2)
    else
      let idx := r.2.1
      let s2 :=
        if replace then
          let su := route_delete_unlink_arp fal r.2.2 dst depth
          let d := route_lpm_delete fal su dst depth scope
          if d.1 ≥ 0 then
            match d.2.1 with
            | some old =>
              let p := nexthop_put old d.2.2.nht
              { d.2.2 with nht := p.1, calls := d.2.2.calls ++ p.2 }
            | none => d.2.2
          else d.2.2
        else r.2.2
      let a := route_lpm_add fal s2 dst depth idx scope
      if a.1 ≥ 0 then (0, route_change_link_arp fal a.2 dst depth idx)
      else
        let p := nexthop_put idx a.2.nht
        (a.1, { a.2 with nht := p.1, calls := a.2.calls ++ p.2 })

/-- `rt_delete`, over a single established table. -/
def rt_delete (fal : FalEnv) (s : RtState) (dst depth tableid : Nat)
    (scope : Int) : Int × RtState :=
  let tableid := if tableid = RT_TABLE_LOCAL then RT_TABLE_MAIN else tableid
  if tableid = RT_TABLE_UNSPEC then (-ENOENT, s)
  else if rt_lpm_is_empty s.lpm then (-ENOENT, s)
  else
    let s1 := route_delete_unlink_arp fal s dst depth
    let d := route_lpm_delete fal s1 dst depth scope
    let s3 :=
      if d.1 ≥ 0 then
        let s2 :=
          match d.2.1 with
          | some idx =>
            let p := nexthop_put idx d.2.2.nht
            { d.2.2 with nht := p.1, calls := d.2.2.calls ++ p.2 }
          | none => d.2.2
        route_delete_relink_arp fal s2 dst depth
      else d.2.2
    if d.1 ≠ 0 then (-ENOENT, s3) else (0, s3)

/-! ### Reserved routes and table creation -/

structure ReservedRoute where
  addr : Nat
  prefixLength : Nat
  flags : Flags
  scope : Int
deriving DecidableEq, Repr

/-- The `reserved_routes[]` array of route.c. -/
def reserved_routes : List ReservedRoute :=
  [{ addr := 0, prefixLength := 0,
     flags := { noroute := true, reject := true },
     scope := LPM_SCOPE_PAN_DIMENSIONAL },
   { addr := 0x7f000000, prefixLength := 8,
     flags := { blackhole := true }, scope := RT_SCOPE_HOST },
   { addr := 0xffffffff, prefixLength := 32,
     flags := { broadcast := true, localFlag := true },
     scope := RT_SCOPE_HOST }]

/-- `rt_is_reserved`. -/
def rt_is_reserved (addr depth : Nat) (scope : Int) : Bool :=
  reserved_routes.any (fun r =>
    r.addr = addr ∧ r.prefixLength = depth && decide (r.scope = scope))

/-- `rt_lpm_add_reserved_routes`: populate a table with the three
reserved routes (each with a fresh single-sibling group). -/
def rt_lpm_add_reserved_routes (fal : FalEnv) (s : RtState) :
    Option RtState :=
  reserved_routes.foldl (fun acc rr =>
    match acc with
    | none => none
    | some st =>
      let nhop : NextHop := { gateway := 0, flags := rr.flags, ifp := none }
      let r := route_nexthop_new fal st [nhop] RTPROT_UNSPEC
      if r.1 < 0 then none
      else
        let a := route_lpm_add fal r.2.2 rr.addr rr.prefixLength r.2.1 rr.scope
        if a.1 ≠ 0 then none
        else some a.2) (some s)

/-- `rt_create_lpm`: a fresh table pre-populated with the reserved
routes. -/
def rt_create_lpm (fal : FalEnv) (s : RtState) (id : Nat) :
    Option RtState :=
  rt_lpm_add_reserved_routes fal { s with lpm := { id := id, rules := [] } }

/-! ### Route display and summary -/

structure RtDisplayRec where
  ip : Nat
  depth : Nat
  scope : Int
  proto : Nat
deriving DecidableEq, Repr

/-- `rt_display`: the normal dump callback — skips empty slots, routes
whose first sibling is LOCAL, routes with any NEIGH_CREATED path, and the
reserved routes. -/
def rt_display (nht : NhTable) (r : LpmRule) : Option RtDisplayRec :=
  match nht.entry r.nh with
  | none => none
  | some g =>
    match g.siblings.head? with
    | none => none
    | some nh0 =>
      if nh0.flags.localFlag then none
      else if nextu_nc_count g ≠ 0 then none
      else if rt_is_reserved r.ip r.depth r.scope then none
      else some ⟨r.ip, r.depth, r.scope, g.proto⟩

/-- `rt_display_all`: the dump-all callback — only empty slots are
skipped. -/
def rt_display_all (nht : NhTable) (r : LpmRule) : Option RtDisplayRec :=
  match nht.entry r.nh with
  | none => none
  | some g => some ⟨r.ip, r.depth, r.scope, g.proto⟩

def rt_walk_output (nht : NhTable) (lpm : Lpm) : List RtDisplayRec :=
  lpm.rules.filterMap (rt_display nht)

def rt_walk_all_output (nht : NhTable) (lpm : Lpm) : List RtDisplayRec :=
  lpm.rules.filterMap (rt_display_all nht)

/-- `rt_summarize`: whether a rule is counted into `rt_used[depth]` by
the per-depth summary. -/
def rt_summarize (nht : NhTable) (r : LpmRule) : Bool :=
  match nht.entry r.nh with
  | none => false
  | some g =>
    match g.siblings.head? with
    | none => false
    | some nh0 =>
      ¬ nh0.flags.localFlag ∧ nextu_nc_count g = 0 ∧
      ¬ rt_is_reserved r.ip r.depth r.scope

/-- The `rt_used[depth]` counters computed by `rt_stats`. -/
def rt_stats_used (nht : NhTable) (lpm : Lpm) (depth : Nat) : Nat :=
  (lpm.rules.filter (fun r => r.depth = depth && rt_summarize nht r)).length

/-- `rt_lookup_fast`: LPM lookup, ECMP selection, NOROUTE rejection. -/
def rt_lookup_fast (ecmpMaxPath : Nat) (s : RtState) (dst hash : Nat) :
    Option NextHop :=
  match lpm_lookup s.lpm dst with
  | none => none
  | some idx =>
    match nexthop_select ecmpMaxPath s.nht idx hash with
    | none => none
    | some nh => if nh.flags.noroute then none else some nh

/-! ### The console command dispatcher (`commands.c`) -/

def MAX_ARGS : Nat := 128

/-- One entry of `cmd_table`.  `isResetCmd` marks `cmd_reset`, the one
handler the console thread forwards (fire-and-forget) to the master
thread instead of running in place.  A handler maps argv to (status,
output). -/
structure Cmd where
  version : Nat
  name : String
  isResetCmd : Bool := false
  func : List String → Int × String
deriving Inhabited

/-- The whitespace set of `split` (`" \t\r\n"`). -/
def isWs (c : Char) : Bool := c = ' ' ∨ c = '\t' ∨ c = '\r' ∨ c = '\n'

/-- The `strtok_r` scan of `split`: runs of non-whitespace become
tokens. -/
def splitGo : List Char → List Char → List String
  | [], acc => if acc.isEmpty then [] else [String.mk acc.reverse]
  | c :: cs, acc =>
    if isWs c then
      if acc.isEmpty then splitGo cs []
      else String.mk acc.reverse :: splitGo cs []
    else splitGo cs (c :: acc)

/-- `split`: whitespace-tokenise a command line into at most
`MAX_ARGS - 1` arguments (silently truncating). -/
def splitLine (line : String) : List String :=
  (splitGo line.toList []).take (MAX_ARGS - 1)

/-- `find_cmd`: the first token selects a handler; comments (`#…`) and
empty names select nothing. -/
def find_cmd (tbl : List Cmd) (name : String) : Option Cmd :=
  match name.toList with
  | [] => none  -- name[0] == 0
  | c :: _ =>
    if c = '#' then none
    else tbl.find? (fun cmd => decide (cmd.name = name))

/-- `console_cmd` with `fn == NULL` and `on_master == false`, as invoked
from `console_request`: returns the status and the captured output.
`sendStatus` is what `send_console_cmd` would return for the forwarded
`reset` command. -/
def console_cmd (tbl : List Cmd) (sendStatus : Int) (line : String) :
    Int × String :=
  match splitLine line with
  | [] => (-1, "")  -- no argv[0]: the memstream is never opened
  | a0 :: rest =>
    match find_cmd tbl a0 with
    | none => (-1, "Unknown command: " ++ a0 ++ "\n")
    | some c =>
      if c.isResetCmd then (sendStatus, "")
      else c.func (a0 :: rest)

/-- `console_request`: run the command and send exactly two frames —
"OK"/"ERROR" by the status, then the output buffer. -/
def console_request (tbl : List Cmd) (sendStatus : Int) (line : String) :
    List String :=
  let r := console_cmd tbl sendStatus line
  [if r.1 = 0 then "OK" else "ERROR", r.2]

/-! ### Shared helpers for the theorems -/

/-- Is a rule with this prefix/depth/scope present? -/
def ruleInLpm (lpm : Lpm) (ip depth : Nat) (scope : Int) : Bool :=
  lpm.rules.any (fun r =>
    r.ip = ip ∧ r.depth = depth && decide (r.scope = scope))

/-- A rule stripped of its platform state. -/
def stripPd (r : LpmRule) : Nat × Nat × Int × Nat :=
  (r.ip, r.depth, r.scope, r.nh)

/-- The software shape of a table: its rules without platform state. -/
def lpmShape (lpm : Lpm) : List (Nat × Nat × Int × Nat) :=
  lpm.rules.map stripPd

def zeroStats : PdObjState → Int := fun _ => 0

def noNeigh : Nat → List Llentry := fun _ => []

def mkRtState (nht : NhTable) (rules : List LpmRule) : RtState :=
  { nht := nht, lpm := { id := RT_TABLE_MAIN, rules := rules },
    swStats := zeroStats, hwStats := zeroStats, lltables := noNeigh,
    calls := [] }

/-! ### C10 — empty next-hop slots mean "no route" -/

/-- C10: For every next-hop index whose slot in the next-hop table is
empty, sibling selection returns none rather than dereferencing the
slot, so a forwarding lookup that resolves to such an index yields "no
route". -/
theorem c10_empty_slot_select_none (ecmp : Nat) (s : RtState)
    (idx hash dst : Nat) (h : s.nht.entry idx = none) :
    nexthop_select ecmp s.nht idx hash = none ∧
    (lpm_lookup s.lpm dst = some idx →
      rt_lookup_fast ecmp s dst hash = none) := by
  refine ⟨?_, ?_⟩
  · unfold nexthop_select
    rw [h]
  · intro hl
    simp only [rt_lookup_fast, nexthop_select, hl, h]

def c10State : RtState :=
  mkRtState NhTable.empty
    [{ ip := 0x0a000000, depth := 8, scope := 0, nh := 7 }]

theorem c10_witness :
    c10State.nht.entry 7 = none ∧
    (nexthop_select 0 c10State.nht 7 5 = none ∧
     (lpm_lookup c10State.lpm 0x0a000001 = some 7 →
       rt_lookup_fast 0 c10State 0x0a000001 5 = none)) :=
  ⟨rfl, c10_empty_slot_select_none 0 c10State 7 5 0x0a000001 rfl⟩

/-! ### C2 — ECMP sibling selection -/

/-- The retry loop equals a first-match search over the first `fuel`
siblings starting at `path`. -/
theorem mpRetryGo_eq_find (next : List NextHop) :
    ∀ fuel path, path + fuel ≤ next.length →
      mpRetryGo next fuel path =
        ((next.drop path).take fuel).find? (fun n => ! n.flags.dead) := by
  intro fuel
  induction fuel with
  | zero => intro path _; simp [mpRetryGo]
  | succ fuel ih =>
    intro path hle
    have hlt : path < next.length := by omega
    have hget : next[path]? = some next[path] := List.getElem?_eq_getElem hlt
    have hdrop : next.drop path = next[path] :: next.drop (path + 1) :=
      (List.getElem_cons_drop next path hlt).symm
    rw [mpRetryGo, hget, hdrop]
    by_cases hd : (next[path]).flags.dead
    · have := ih (path + 1) (by omega)
      simp [hd, List.find?, this]
    · simp [hd, List.find?]

def sibDeadA : NextHop :=
  { gateway := 0x0a000001, flags := { gateway := true, dead := true },
    ifp := some 10 }

def sibDeadB : NextHop :=
  { gateway := 0x0a000002, flags := { gateway := true, dead := true },
    ifp := some 11 }

def sibLive : NextHop :=
  { gateway := 0x0a000003, flags := { gateway := true }, ifp := some 12 }

def gC2 : NextHopU :=
  { siblings := [sibDeadA, sibDeadB, sibLive], proto := 3, index := 1,
    refcount := 1, pdState := .Full, nhgFal := 0, nhFal := [0, 0, 0] }

def tblC2 : NhTable :=
  { entry := fun i => if i = 1 then some gC2 else none, inUse := 1,
    rover := 2, hash := [(gC2.key, 1)], neighPresent := 0, neighCreated := 0 }

/-- C2 counterexample: with `ecmp_max_path = 2` and a 3-sibling group
whose first two siblings are DEAD, selection returns none although a
non-DEAD sibling exists — the claim's "first non-DEAD sibling in array
order / none only when every sibling is DEAD" fails, because the rescan
stops at `min(size, ecmp_max_path)`. -/
theorem c2_counterexample :
    nexthop_select 2 tblC2 1 0 = none ∧
    gC2.siblings.find? (fun n => ! n.flags.dead) = some sibLive ∧
    gC2.siblings.all (fun n => n.flags.dead) = false := by
  refine ⟨?_, by decide, by decide⟩
  show nexthop_mp_select 2 gC2.siblings 3 0 = none
  decide

/-- C2 (amended): selection on a size-1 group returns the only sibling;
on a larger group it reduces the hash modulo `min(size, ecmp_max_path)`
(the whole size when `ecmp_max_path` is 0) and returns that sibling
unless it is DEAD, in which case it returns the first non-DEAD sibling —
in array order among the first `min(size, ecmp_max_path)` siblings —
and none when all of those are DEAD; the forwarding lookup returns none
when the selected sibling has NOROUTE set. -/
theorem c2_select_amended (ecmp : Nat) (s : NhTable) (idx hash : Nat)
    (g : NextHopU) (k : Nat) (hg : s.entry idx = some g)
    (hk : k = if ecmp ≠ 0 ∧ ecmp < g.siblings.length then ecmp
              else g.siblings.length) :
    (∀ nh, g.siblings = [nh] → nexthop_select ecmp s idx hash = some nh) ∧
    (g.siblings.length ≠ 1 →
      ∀ nh, g.siblings[hash % k]? = some nh →
        (nh.flags.dead = false →
          nexthop_select ecmp s idx hash = some nh) ∧
        (nh.flags.dead = true →
          nexthop_select ecmp s idx hash =
            (g.siblings.take k).find? (fun n => ! n.flags.dead))) ∧
    (g.siblings.length ≠ 1 →
      (g.siblings.take k).all (fun n => n.flags.dead) = true →
      nexthop_select ecmp s idx hash = none) ∧
    (∀ (st : RtState) (dst : Nat), st.nht = s →
      lpm_lookup st.lpm dst = some idx →
      ∀ nh, nexthop_select ecmp s idx hash = some nh →
        nh.flags.noroute = true → rt_lookup_fast ecmp st dst hash = none) := by
  have hkle : k ≤ g.siblings.length := by
    rw [hk]; split
    · omega
    · exact le_rfl
  refine ⟨?_, ?_, ?_, ?_⟩
  · intro nh hone
    simp [nexthop_select, hg, hone]
  · intro hlen nh hnth
    simp only [nexthop_select, nexthop_mp_select, ecmp_lookup, hg,
               if_neg hlen, ← hk, hnth]
    constructor
    · intro hd; simp [hd]
    · intro hd
      simp only [hd, if_true]
      have := mpRetryGo_eq_find g.siblings k 0 (by omega)
      simpa using this
  · intro hlen hall
    -- the hashed sibling is among the first k, hence DEAD
    rcases Nat.eq_zero_or_pos k with hk0 | hkpos
    · -- k = 0 forces an empty sibling list; out-of-range access gives none
      have hempty : g.siblings.length = 0 := by
        rw [hk] at hk0
        by_cases hc : ecmp ≠ 0 ∧ ecmp < g.siblings.length
        · rw [if_pos hc] at hk0; omega
        · rwa [if_neg hc] at hk0
      have hnone : g.siblings[hash % k]? = none := by
        apply List.getElem?_eq_none
        omega
      simp only [nexthop_select, nexthop_mp_select, ecmp_lookup, hg,
                 if_neg hlen, ← hk, hnone]
    · have hmod : hash % k < k := Nat.mod_lt _ hkpos
      have hlt : hash % k < g.siblings.length := lt_of_lt_of_le hmod hkle
      have hget : g.siblings[hash % k]? = some g.siblings[hash % k] :=
        List.getElem?_eq_getElem hlt
      have hmem : g.siblings[hash % k] ∈ g.siblings.take k := by
        apply List.getElem?_mem (n := hash % k)
        rw [List.getElem?_take]
        simp [hmod, hget]
      have hdead : (g.siblings[hash % k]).flags.dead = true := by
        have := List.all_eq_true.mp hall _ hmem
        simpa using this
      have hretry := mpRetryGo_eq_find g.siblings k 0 (by omega)
      rw [List.drop_zero] at hretry
      have hfind : (g.siblings.take k).find? (fun n => ! n.flags.dead) = none := by
        apply List.find?_eq_none.mpr
        intro x hx
        have := List.all_eq_true.mp hall _ hx
        simpa using this
      simp only [nexthop_select, nexthop_mp_select, ecmp_lookup, hg,
                 if_neg hlen, ← hk, hget, hdead, if_true, hretry, hfind]
  · intro st dst hst hl nh hsel hnr
    simp only [rt_lookup_fast, hl, hst, hsel, hnr, if_true]

def tblC2b : NhTable :=
  { entry := fun i => if i = 1 then some gC2 else none, inUse := 1,
    rover := 2, hash := [(gC2.key, 1)], neighPresent := 0,
    neighCreated := 0 }

theorem c2_select_amended_witness :
    tblC2b.entry 1 = some gC2 ∧
    (2 : Nat) = (if (2 : Nat) ≠ 0 ∧ 2 < gC2.siblings.length then (2 : Nat)
                 else gC2.siblings.length) ∧
    ((∀ nh, gC2.siblings = [nh] → nexthop_select 2 tblC2b 1 0 = some nh) ∧
     (gC2.siblings.length ≠ 1 →
       ∀ nh, gC2.siblings[0 % 2]? = some nh →
         (nh.flags.dead = false → nexthop_select 2 tblC2b 1 0 = some nh) ∧
         (nh.flags.dead = true →
           nexthop_select 2 tblC2b 1 0 =
             (gC2.siblings.take 2).find? (fun n => ! n.flags.dead))) ∧
     (gC2.siblings.length ≠ 1 →
       (gC2.siblings.take 2).all (fun n => n.flags.dead) = true →
       nexthop_select 2 tblC2b 1 0 = none) ∧
     (∀ (st : RtState) (dst : Nat), st.nht = tblC2b →
       lpm_lookup st.lpm dst = some 1 →
       ∀ nh, nexthop_select 2 tblC2b 1 0 = some nh →
         nh.flags.noroute = true → rt_lookup_fast 2 st dst 0 = none)) :=
  ⟨rfl, by decide, c2_select_amended 2 tblC2b 1 0 gC2 2 rfl (by decide)⟩

/-! ### C8 — console request/response contract -/

/-- C8: For every text command line received on the console socket the
server replies with exactly two frames: "OK" when the selected handler
returned 0 and "ERROR" otherwise, then the handler's output; an unknown
verb yields status -1 and an "ERROR" first frame with the diagnostic. -/
theorem c8_console_two_frames (tbl : List Cmd) (sendStatus : Int)
    (line : String) :
    (console_request tbl sendStatus line).length = 2 ∧
    (∀ a0 rest c, splitLine line = a0 :: rest → find_cmd tbl a0 = some c →
      c.isResetCmd = false →
      console_request tbl sendStatus line =
        [if (c.func (a0 :: rest)).1 = 0 then "OK" else "ERROR",
         (c.func (a0 :: rest)).2]) ∧
    (∀ a0 rest, splitLine line = a0 :: rest → find_cmd tbl a0 = none →
      (console_cmd tbl sendStatus line).1 = -1 ∧
      console_request tbl sendStatus line =
        ["ERROR", "Unknown command: " ++ a0 ++ "\n"]) := by
  refine ⟨rfl, ?_, ?_⟩
  · intro a0 rest c hsplit hfind hres
    simp [console_request, console_cmd, hsplit, hfind, hres]
  · intro a0 rest hsplit hfind
    constructor
    · simp [console_cmd, hsplit, hfind]
    · simp [console_request, console_cmd, hsplit, hfind]

def cmdRouteW : Cmd :=
  { version := 0, name := "route",
    func := fun args => (0, "shown " ++ String.intercalate " " args) }

def cmdBadW : Cmd :=
  { version := 0, name := "bad", func := fun _ => (-1, "nope") }

def cmdTblW : List Cmd := [cmdRouteW, cmdBadW]

theorem c8_console_witness :
    ((console_request cmdTblW 0 "route show").length = 2 ∧
     (∀ a0 rest c, splitLine "route show" = a0 :: rest →
       find_cmd cmdTblW a0 = some c → c.isResetCmd = false →
       console_request cmdTblW 0 "route show" =
         [if (c.func (a0 :: rest)).1 = 0 then "OK" else "ERROR",
          (c.func (a0 :: rest)).2]) ∧
     (∀ a0 rest, splitLine "route show" = a0 :: rest →
       find_cmd cmdTblW a0 = none →
       (console_cmd cmdTblW 0 "route show").1 = -1 ∧
       console_request cmdTblW 0 "route show" =
         ["ERROR", "Unknown command: " ++ a0 ++ "\n"])) :=
  c8_console_two_frames cmdTblW 0 "route show"

/-! ### C9 — which routes the dumps and the summary omit -/

/-- C9: The normal route dump and the per-depth summary omit — besides
the reserved routes — every route whose group's first sibling is LOCAL
and every route with a NEIGH_CREATED sibling; the dump-all variant
reports such routes. -/
theorem c9_dump_omits_local_and_neigh_created (nht : NhTable) (lpm : Lpm)
    (r : LpmRule) (g : NextHopU) (nh0 : NextHop)
    (hmem : r ∈ lpm.rules) (hg : nht.entry r.nh = some g)
    (h0 : g.siblings.head? = some nh0)
    (hskip : nh0.flags.localFlag = true ∨ nextu_nc_count g ≠ 0 ∨
             rt_is_reserved r.ip r.depth r.scope = true) :
    rt_display nht r = none ∧
    rt_summarize nht r = false ∧
    rt_display_all nht r = some ⟨r.ip, r.depth, r.scope, g.proto⟩ ∧
    (⟨r.ip, r.depth, r.scope, g.proto⟩ : RtDisplayRec) ∈
      rt_walk_all_output nht lpm := by
  have hall : rt_display_all nht r = some ⟨r.ip, r.depth, r.scope, g.proto⟩ := by
    simp [rt_display_all, hg]
  refine ⟨?_, ?_, hall, ?_⟩
  · rcases hskip with hl | hnc | hres
    · simp [rt_display, hg, h0, hl]
    · simp [rt_display, hg, h0, hnc]
    · simp [rt_display, hg, h0, hres]
  · rcases hskip with hl | hnc | hres
    · simp [rt_summarize, hg, h0, hl]
    · simp [rt_summarize, hg, h0, hnc]
    · simp [rt_summarize, hg, h0, hres]
  · exact List.mem_filterMap.mpr ⟨r, hmem, hall⟩

def sibNC : NextHop :=
  { gateway := 0x0a000005, flags := { neighCreated := true },
    ifp := some 3, lle := some ⟨0x0a000005, 3⟩ }

def gNC : NextHopU :=
  { siblings := [sibNC], proto := 0, index := 4, refcount := 1,
    pdState := .Full, nhgFal := 0, nhFal := [0] }

def ruleNC : LpmRule :=
  { ip := 0x0a000005, depth := 32, scope := RT_SCOPE_LINK, nh := 4 }

def nhtC9 : NhTable :=
  { entry := fun i => if i = 4 then some gNC else none, inUse := 1,
    rover := 5, hash := [(gNC.key, 4)], neighPresent := 0, neighCreated := 1 }

def lpmC9 : Lpm := { id := RT_TABLE_MAIN, rules := [ruleNC] }

theorem c9_dump_witness :
    ruleNC ∈ lpmC9.rules ∧ nhtC9.entry ruleNC.nh = some gNC ∧
    gNC.siblings.head? = some sibNC ∧
    (sibNC.flags.localFlag = true ∨ nextu_nc_count gNC ≠ 0 ∨
      rt_is_reserved ruleNC.ip ruleNC.depth ruleNC.scope = true) ∧
    (rt_display nhtC9 ruleNC = none ∧
     rt_summarize nhtC9 ruleNC = false ∧
     rt_display_all nhtC9 ruleNC =
       some ⟨ruleNC.ip, ruleNC.depth, ruleNC.scope, gNC.proto⟩ ∧
     (⟨ruleNC.ip, ruleNC.depth, ruleNC.scope, gNC.proto⟩ : RtDisplayRec) ∈
       rt_walk_all_output nhtC9 lpmC9) :=
  ⟨by decide, rfl, rfl, by decide,
   c9_dump_omits_local_and_neigh_created nhtC9 lpmC9 ruleNC gNC sibNC
     (by decide) rfl rfl (by decide)⟩

/-! ### C7 — FAL failures never fail the software path -/

theorem lpmShape_setPd (lpm : Lpm) (ip depth : Nat) (scope : Int)
    (st : PdObjState) (cr : Bool) :
    lpmShape (lpmSetPd lpm ip depth scope st cr) = lpmShape lpm := by
  simp only [lpmShape, lpmSetPd, List.map_map]
  apply List.map_congr_left
  intro r _
  simp only [Function.comp_apply]
  split <;> rfl

theorem lpm_add_fst_ne_noExist (lpm : Lpm) (ip depth nh : Nat) (scope : Int) :
    (lpm_add lpm ip depth nh scope).1 ≠ .noExist := by
  unfold lpm_add
  dsimp only
  split
  · simp
  · split
    · simp
    · split <;> simp

theorem lpm_add_shape_mem (lpm : Lpm) (ip depth nh : Nat) (scope : Int) :
    (ip, depth, scope, nh) ∈ lpmShape (lpm_add lpm ip depth nh scope).2.1 := by
  unfold lpm_add
  dsimp only
  split
  case isTrue hany =>
    rcases List.any_eq_true.mp hany with ⟨q, hq, hsc⟩
    have hq' := List.mem_filter.mp hq
    have hip : q.ip = ip ∧ q.depth = depth := by
      have := hq'.2; simpa using this
    have hscope : q.scope = scope := by simpa using hsc
    simp only [lpmShape, List.map_map]
    apply List.mem_map.mpr
    refine ⟨q, hq'.1, ?_⟩
    simp only [Function.comp_apply]
    rw [if_pos ⟨hip.1, hip.2, hscope⟩]
    simp [stripPd, hip.1, hip.2, hscope]
  case isFalse =>
    split
    · simp [lpmShape, stripPd]
    · split <;> simp [lpmShape, stripPd]

theorem lpm_delete_inv (lpm : Lpm) (ip depth : Nat) (scope : Int) :
    (lpm_delete lpm ip depth scope).1 = .noExist ∨
    ((∃ r, (lpm_delete lpm ip depth scope).2.2.1 = some r) ∧
     ((lpm_delete lpm ip depth scope).1 = .lowerScopeExists →
       ∃ p, (lpm_delete lpm ip depth scope).2.2.2 = some p)) := by
  unfold lpm_delete
  rcases hf : lpm.rules.find? (fun r =>
      r.ip = ip ∧ r.depth = depth && decide (r.scope = scope)) with _ | r
  · rw [hf]; left; rfl
  · rw [hf]
    dsimp only
    right
    split
    · exact ⟨⟨r, rfl⟩, by intro h; cases h⟩
    · split
      · exact ⟨⟨r, rfl⟩, by intro _; exact ⟨_, rfl⟩⟩
      · exact ⟨⟨r, rfl⟩, by intro h; cases h⟩

/-- C7: For every route add or delete in which the software LPM mutation
succeeds, the operation returns success regardless of the FAL's statuses;
the FAL outcome influences neither the return code, the software rules
(up to their recorded pd-state) nor the software statistics, and the
added rule is present in the LPM. -/
theorem c7_fal_failure_isolated (fal fal' : FalEnv) (s : RtState)
    (ip depth nhIdx : Nat) (scope : Int) (g : NextHopU)
    (hg : s.nht.entry nhIdx = some g) :
    ((route_lpm_add fal s ip depth nhIdx scope).1 ≥ 0 ∧
     (route_lpm_add fal s ip depth nhIdx scope).1 =
       (route_lpm_add fal' s ip depth nhIdx scope).1 ∧
     (ip, depth, scope, nhIdx) ∈
       lpmShape (route_lpm_add fal s ip depth nhIdx scope).2.lpm ∧
     lpmShape (route_lpm_add fal s ip depth nhIdx scope).2.lpm =
       lpmShape (route_lpm_add fal' s ip depth nhIdx scope).2.lpm ∧
     (route_lpm_add fal s ip depth nhIdx scope).2.swStats =
       (route_lpm_add fal' s ip depth nhIdx scope).2.swStats ∧
     (route_lpm_add fal s ip depth nhIdx scope).2.nht = s.nht) ∧
    ((lpm_delete s.lpm ip depth scope).1 ≠ .noExist →
     ((route_lpm_delete fal s ip depth scope).1 ≥ 0 ∧
      (route_lpm_delete fal s ip depth scope).1 =
        (route_lpm_delete fal' s ip depth scope).1 ∧
      (route_lpm_delete fal s ip depth scope).2.1 =
        (route_lpm_delete fal' s ip depth scope).2.1 ∧
      lpmShape (route_lpm_delete fal s ip depth scope).2.2.lpm =
        lpmShape (route_lpm_delete fal' s ip depth scope).2.2.lpm ∧
      (route_lpm_delete fal s ip depth scope).2.2.swStats =
        (route_lpm_delete fal' s ip depth scope).2.2.swStats ∧
      (route_lpm_delete fal s ip depth scope).2.2.nht = s.nht)) := by
  constructor
  · have hmem := lpm_add_shape_mem s.lpm ip depth nhIdx scope
    have hne := lpm_add_fst_ne_noExist s.lpm ip depth nhIdx scope
    rcases h : lpm_add s.lpm ip depth nhIdx scope with ⟨err, lpm', oldR⟩
    rw [h] at hmem hne
    cases err with
    | noExist => exact absurd rfl hne
    | alreadyExists =>
      simp only [route_lpm_add, hg, h]
      norm_num [hmem]
    | higherScopeExists =>
      simp only [route_lpm_add, hg, h]
      norm_num [lpmShape_setPd, LpmErr.toInt, hmem]
    | lowerScopeExists =>
      simp only [route_lpm_add, hg, h]
      norm_num [lpmShape_setPd, hmem]
    | success =>
      simp only [route_lpm_add, hg, h]
      norm_num [lpmShape_setPd, hmem]
  · intro hnex
    rcases lpm_delete_inv s.lpm ip depth scope with hno | ⟨⟨r, hr⟩, hprom⟩
    · exact absurd hno hnex
    rcases h : lpm_delete s.lpm ip depth scope with ⟨err, lpm', delR, promR⟩
    rw [h] at hr hprom hnex
    simp only at hr hprom hnex
    subst hr
    cases err with
    | noExist => exact absurd rfl hnex
    | alreadyExists =>
      -- lpm_delete never returns alreadyExists
      exfalso
      unfold lpm_delete at h
      rcases hf : s.lpm.rules.find? (fun q =>
          q.ip = ip ∧ q.depth = depth && decide (q.scope = scope)) with _ | q
      · rw [hf] at h; simp at h
      · rw [hf] at h
        dsimp only at h
        revert h
        split
        · intro h; simp at h
        · split
          · intro h; simp at h
          · intro h; simp at h
    | higherScopeExists =>
      simp only [route_lpm_delete, h]
      norm_num [LpmErr.toInt]
    | lowerScopeExists =>
      rcases hprom rfl with ⟨p, hp⟩
      subst hp
      rcases hpe : s.nht.entry p.nh with _ | nextu
      · simp only [route_lpm_delete, h, hpe]
        norm_num
      · simp only [route_lpm_delete, h, hpe]
        norm_num [lpmShape_setPd]
    | success =>
      simp only [route_lpm_delete, h]
      by_cases hc : r.created <;> simp only [hc, if_true, if_false] <;> norm_num

def gC7 : NextHopU :=
  { siblings := [{ gateway := 0, flags := {}, ifp := some 2 }], proto := 0,
    index := 9, refcount := 1, pdState := .Full, nhgFal := 0, nhFal := [0] }

def sC7 : RtState :=
  mkRtState
    { entry := fun i => if i = 9 then some gC7 else none, inUse := 1,
      rover := 10, hash := [(gC7.key, 9)], neighPresent := 0,
      neighCreated := 0 }
    [{ ip := 0x0a000000, depth := 24, scope := 0, nh := 9, created := true }]

theorem c7_fal_failure_isolated_witness :
    sC7.nht.entry 9 = some gC7 ∧
    ((((route_lpm_add { newRouteStatus := -1 } sC7 0x0b000000 16 9 0).1 ≥ 0 ∧
       (route_lpm_add { newRouteStatus := -1 } sC7 0x0b000000 16 9 0).1 =
         (route_lpm_add {} sC7 0x0b000000 16 9 0).1 ∧
       (0x0b000000, 16, (0 : Int), 9) ∈
         lpmShape (route_lpm_add { newRouteStatus := -1 } sC7 0x0b000000 16 9 0).2.lpm ∧
       lpmShape (route_lpm_add { newRouteStatus := -1 } sC7 0x0b000000 16 9 0).2.lpm =
         lpmShape (route_lpm_add {} sC7 0x0b000000 16 9 0).2.lpm ∧
       (route_lpm_add { newRouteStatus := -1 } sC7 0x0b000000 16 9 0).2.swStats =
         (route_lpm_add {} sC7 0x0b000000 16 9 0).2.swStats ∧
       (route_lpm_add { newRouteStatus := -1 } sC7 0x0b000000 16 9 0).2.nht =
         sC7.nht) ∧
      ((lpm_delete sC7.lpm 0x0b000000 16 0).1 ≠ .noExist →
       ((route_lpm_delete { newRouteStatus := -1 } sC7 0x0b000000 16 0).1 ≥ 0 ∧
        (route_lpm_delete { newRouteStatus := -1 } sC7 0x0b000000 16 0).1 =
          (route_lpm_delete {} sC7 0x0b000000 16 0).1 ∧
        (route_lpm_delete { newRouteStatus := -1 } sC7 0x0b000000 16 0).2.1 =
          (route_lpm_delete {} sC7 0x0b000000 16 0).2.1 ∧
        lpmShape (route_lpm_delete { newRouteStatus := -1 } sC7 0x0b000000 16 0).2.2.lpm =
          lpmShape (route_lpm_delete {} sC7 0x0b000000 16 0).2.2.lpm ∧
        (route_lpm_delete { newRouteStatus := -1 } sC7 0x0b000000 16 0).2.2.swStats =
          (route_lpm_delete {} sC7 0x0b000000 16 0).2.2.swStats ∧
        (route_lpm_delete { newRouteStatus := -1 } sC7 0x0b000000 16 0).2.2.nht =
          sC7.nht)))) :=
  ⟨rfl, c7_fal_failure_isolated { newRouteStatus := -1 } {} sC7
          0x0b000000 16 9 0 gC7 rfl⟩

/-! ### C4 — reserved routes: created and hidden, but deletable -/

def c4Fal : FalEnv := {}

def c4Empty : RtState := mkRtState NhTable.empty []

/-- The state after `rt_create_lpm`: the three reserved routes are in. -/
def c4Created : RtState :=
  (rt_create_lpm c4Fal c4Empty RT_TABLE_MAIN).getD c4Empty

def c4SibConn : NextHop := { gateway := 0, flags := {}, ifp := some 10 }

/-- One ordinary connected route added, so the table is not "empty". -/
def c4WithRoute : RtState :=
  (rt_insert c4Fal c4Created 0x0a000000 24 RT_TABLE_MAIN 0 3 [c4SibConn]
    false).2

/-- C4, failing input: a table holding the reserved routes plus one
ordinary route.  Table creation did pre-populate the three reserved
routes and the dump/summary hide them — but a controller delete naming
the reserved 127.0.0.0/8 at host scope succeeds and removes the rule:
`rt_delete` has no reserved-route guard. -/
theorem c4_reserved_route_deletable :
    -- the three reserved routes are pre-populated on creation
    (rt_create_lpm c4Fal c4Empty RT_TABLE_MAIN).isSome = true ∧
    ruleInLpm c4Created.lpm 0 0 LPM_SCOPE_PAN_DIMENSIONAL = true ∧
    ruleInLpm c4Created.lpm 0x7f000000 8 RT_SCOPE_HOST = true ∧
    ruleInLpm c4Created.lpm 0xffffffff 32 RT_SCOPE_HOST = true ∧
    lpm_rule_count c4Created.lpm = 3 ∧
    -- none of them is reported by the normal dump
    rt_walk_output c4Created.nht c4Created.lpm = [] ∧
    -- the reserved rule is still present alongside the ordinary route
    ruleInLpm c4WithRoute.lpm 0x7f000000 8 RT_SCOPE_HOST = true ∧
    rt_is_reserved 0x7f000000 8 RT_SCOPE_HOST = true ∧
    -- but the controller delete removes it and reports success
    (rt_delete c4Fal c4WithRoute 0x7f000000 8 RT_TABLE_MAIN
      RT_SCOPE_HOST).1 = 0 ∧
    ruleInLpm (rt_delete c4Fal c4WithRoute 0x7f000000 8 RT_TABLE_MAIN
      RT_SCOPE_HOST).2.lpm 0x7f000000 8 RT_SCOPE_HOST = false := by
  decide

/-! ### C1 — the link-arp subtree cleanup and the immediate-cover test -/

def c1Fal : FalEnv := {}

/-- The shared connected group of 10.0.0.4/30 and 10.0.0.4/31. -/
def gC1Conn : NextHopU :=
  { siblings := [{ gateway := 0, flags := {}, ifp := some 1 }], proto := 3,
    index := 1, refcount := 2, pdState := .Full, nhgFal := 0, nhFal := [0] }

/-- The NEIGH_CREATED /32 group for neighbour 10.0.0.4 on interface 1. -/
def gC1NC : NextHopU :=
  { siblings := [{ gateway := 0x0a000004,
                   flags := { neighCreated := true }, ifp := some 1,
                   lle := some ⟨0x0a000004, 1⟩ }], proto := 0, index := 2,
    refcount := 1, pdState := .Full, nhFal := [0], nhgFal := 0 }

/-- The table just after 10.0.0.4/30 was added to the LPM (link-arp runs
next): 10.0.0.4/31 (connected) and the NEIGH_CREATED 10.0.0.4/32 —
whose immediate cover is the /31 — are under it. -/
def sC1 : RtState :=
  mkRtState
    { entry := fun i => if i = 1 then some gC1Conn
               else if i = 2 then some gC1NC else none,
      inUse := 2, rover := 3,
      hash := [(gC1Conn.key, 1), (gC1NC.key, 2)],
      neighPresent := 0, neighCreated := 1 }
    [{ ip := 0x0a000004, depth := 30, scope := 0, nh := 1 },
     { ip := 0x0a000004, depth := 31, scope := 0, nh := 1 },
     { ip := 0x0a000004, depth := 32, scope := RT_SCOPE_LINK, nh := 2 }]

/-- C1, failing input: the inserted prefix 10.0.0.4/30 is any-connected
and the NEIGH_CREATED 10.0.0.4/32 sits under it, but the /32's immediate
cover is the intermediate 10.0.0.4/31 — by the claim (and the function's
own comments) the /32 must be left in place.  The subtree cleanup
deletes it anyway, because the guard
`masked_ip != changing->ip && depth != changing->depth` short-circuits
on the shared network address and never consults the cover. -/
theorem c1_subtree_cleanup_overdeletes :
    nextu_is_any_connected gC1Conn = true ∧
    nextu_nc_count gC1NC = 1 ∧
    -- the /32's immediate cover is the /31, not the inserted /30
    lpm_find_cover sC1.lpm 0x0a000004 32 = some (0x0a000004, 31, 1) ∧
    ruleInLpm sC1.lpm 0x0a000004 32 RT_SCOPE_LINK = true ∧
    -- yet the walk run for the inserted /30 deletes the /32
    ruleInLpm (route_change_link_arp c1Fal sC1 0x0a000004 30 1).lpm
      0x0a000004 32 RT_SCOPE_LINK = false ∧
    -- and frees its next-hop group
    (route_change_link_arp c1Fal sC1 0x0a000004 30 1).nht.entry 2 = none := by
  refine ⟨by decide, by decide, by decide, by decide, by decide, ?_⟩
  rfl

/-! ### Shared next-hop-pool lemmas -/

theorem hash_any_eq_false_of_lookup_none (s : NhTable) (k : NhKey)
    (h : nexthop_lookup s k = none) :
    s.hash.any (fun p => decide (p.1 = k)) = false := by
  unfold nexthop_lookup at h
  rcases hf : s.hash.find? (fun p => decide (p.1 = k)) with _ | p
  · rw [List.any_eq_false]
    intro x hx
    have := List.find?_eq_none.mp hf x hx
    simpa using this
  · rw [hf] at h; simp at h

/-- The fresh-allocation case of `nexthop_new` in explicit form. -/
theorem nexthop_new_fresh (fal : FalEnv) (nh : List NextHop) (proto : Nat)
    (s : NhTable) (hlk : nexthop_lookup s (nhKeyOfList proto nh) = none)
    (hsp : s.inUse ≠ NEXTHOP_HASH_TBL_SIZE) :
    nexthop_new fal nh proto s =
      { rc := 0, slot := s.rover,
        tbl := { s with
          entry := Function.update s.entry s.rover (some
            { siblings := nh, proto := proto, index := s.rover,
              refcount := 1,
              pdState := fal_state_to_pd_state fal.newNextHopsStatus,
              nhgFal := fal.nhgObj,
              nhFal := List.replicate nh.length fal.nhObj }),
          rover := roverScan s.entry s.rover, inUse := s.inUse + 1,
          hash := (nhKeyOfList proto nh, s.rover) :: s.hash },
        calls := [FalCall.newNextHops nh] } := by
  have hany := hash_any_eq_false_of_lookup_none s _ hlk
  unfold nexthop_new
  dsimp only
  rw [hlk]
  rw [if_neg hsp, hany]
  simp

/-- The reuse case of `nexthop_new` in explicit form. -/
theorem nexthop_new_reuse (fal : FalEnv) (nh : List NextHop) (proto : Nat)
    (s : NhTable) (idx : Nat)
    (hlk : nexthop_lookup s (nhKeyOfList proto nh) = some idx) :
    nexthop_new fal nh proto s =
      (let e := Function.update s.entry idx
        ((s.entry idx).map (fun g => { g with refcount := g.refcount + 1 }))
       { rc := 0, slot := idx, tbl := { s with entry := e }, calls := [] }) := by
  unfold nexthop_new
  dsimp only
  rw [hlk]

/-- The fresh-allocation case of `route_nexthop_new` in explicit form. -/
theorem route_nexthop_new_fresh (fal : FalEnv) (s : RtState)
    (nh : List NextHop) (proto : Nat)
    (hlk : nexthop_lookup s.nht (nhKeyOfList proto nh) = none)
    (hsp : s.nht.inUse ≠ NEXTHOP_HASH_TBL_SIZE) :
    route_nexthop_new fal s nh proto =
      (0, s.nht.rover,
        { s with
          nht := { s.nht with
            entry := Function.update s.nht.entry s.nht.rover (some
              { siblings := nh, proto := proto, index := s.nht.rover,
                refcount := 1,
                pdState := fal_state_to_pd_state fal.newNextHopsStatus,
                nhgFal := fal.nhgObj,
                nhFal := List.replicate nh.length fal.nhObj }),
            rover := roverScan s.nht.entry s.nht.rover,
            inUse := s.nht.inUse + 1,
            hash := (nhKeyOfList proto nh, s.nht.rover) :: s.nht.hash },
          calls := s.calls ++ [FalCall.newNextHops nh] }) := by
  unfold route_nexthop_new
  rw [nexthop_new_fresh fal nh proto s.nht hlk hsp]
  norm_num

theorem route_lpm_add_nht (fal : FalEnv) (s : RtState)
    (ip depth nhIdx : Nat) (scope : Int) :
    (route_lpm_add fal s ip depth nhIdx scope).2.nht = s.nht := by
  unfold route_lpm_add
  rcases he : s.nht.entry nhIdx with _ | g
  · rfl
  · rcases h : lpm_add s.lpm ip depth nhIdx scope with ⟨err, lpm', oldR⟩
    cases err <;> simp

theorem route_lpm_add_shape_mem (fal : FalEnv) (s : RtState)
    (ip depth nhIdx : Nat) (scope : Int) (g : NextHopU)
    (hg : s.nht.entry nhIdx = some g) :
    (ip, depth, scope, nhIdx) ∈
      lpmShape (route_lpm_add fal s ip depth nhIdx scope).2.lpm := by
  have hmem := lpm_add_shape_mem s.lpm ip depth nhIdx scope
  have hne := lpm_add_fst_ne_noExist s.lpm ip depth nhIdx scope
  rcases h : lpm_add s.lpm ip depth nhIdx scope with ⟨err, lpm', oldR⟩
  rw [h] at hmem hne
  cases err with
  | noExist => exact absurd rfl hne
  | alreadyExists =>
    simp only [route_lpm_add, hg, h]
    simpa using hmem
  | higherScopeExists =>
    simp only [route_lpm_add, hg, h]
    simpa [lpmShape_setPd] using hmem
  | lowerScopeExists =>
    simp only [route_lpm_add, hg, h]
    simpa [lpmShape_setPd] using hmem
  | success =>
    simp only [route_lpm_add, hg, h]
    simpa [lpmShape_setPd] using hmem

/-! ### C6 — /32 creation from a connected cover on neighbour insert -/

/-- The group `route_create_arp` builds: the cover's siblings with
sibling `i` marked NEIGH_CREATED and its gateway set to the host. -/
def neighCreatedCopy (cover : NextHopU) (lle : Llentry) (i : Nat) :
    List NextHop :=
  cover.siblings.mapIdx (fun j n =>
    if j = i then
      { n with flags := { n.flags with neighCreated := true },
               lle := some lle, gateway := lle.addr }
    else n)

def c6Fal : FalEnv := {}

def c6SibGw : NextHop :=
  { gateway := 0x0a000101, flags := { gateway := true }, ifp := some 1 }

def c6SibConn : NextHop := { gateway := 0, flags := {}, ifp := some 1 }

/-- A cover group whose FIRST sibling out of interface 1 is a gateway
path; a connected sibling out of the same interface follows it. -/
def gC6 : NextHopU :=
  { siblings := [c6SibGw, c6SibConn], proto := 3, index := 1,
    refcount := 1, pdState := .Full, nhgFal := 0, nhFal := [0, 0] }

def sC6 : RtState :=
  mkRtState
    { entry := fun i => if i = 1 then some gC6 else none, inUse := 1,
      rover := 2, hash := [(gC6.key, 1)], neighPresent := 0,
      neighCreated := 0 }
    [{ ip := 0x0a000000, depth := 24, scope := 0, nh := 1 }]

def c6Lle : Llentry := ⟨0x0a000007, 1⟩

/-- C6 counterexample: the cover *has* a connected sibling whose egress
interface is the neighbour's interface, yet no /32 is created, because
`nextu_find_path_using_ifp` returns the first sibling using the
interface — here the (non-connected) gateway path. -/
theorem c6_counterexample :
    lpm_lookup_exact sC6.lpm 0x0a000007 32 = none ∧
    lpm_lookup sC6.lpm 0x0a000007 = some 1 ∧
    gC6.siblings.any
      (fun nh => nh_is_connected nh && decide (nh4_get_ifp nh = some 1)) =
      true ∧
    nextu_find_path_using_ifp gC6 1 = some (c6SibGw, 0) ∧
    nh_is_connected c6SibGw = false ∧
    (routing_insert_arp_safe c6Fal sC6 c6Lle false).lpm = sC6.lpm := by
  decide

/-- C6 (amended): when a neighbour is inserted and no exact /32 exists,
then — writing `first` for the first sibling of the cover's group whose
egress interface is the neighbour's interface — if `first` exists and is
connected, a /32 at scope LINK is created whose fresh group copies the
cover's group with `first` marked NEIGH_CREATED and its gateway set to
the host address; if there is no such sibling, or `first` is not
connected, no /32 is created. -/
theorem c6_create_arp_first_match (fal : FalEnv) (s : RtState)
    (lle : Llentry) (coverIdx : Nat) (cover : NextHopU)
    (hex : lpm_lookup_exact s.lpm lle.addr 32 = none)
    (hlk : lpm_lookup s.lpm lle.addr = some coverIdx)
    (hcov : s.nht.entry coverIdx = some cover) :
    (nextu_find_path_using_ifp cover lle.ifindex = none →
       routing_insert_arp_safe fal s lle false = s) ∧
    (∀ nh i, nextu_find_path_using_ifp cover lle.ifindex = some (nh, i) →
       nh_is_connected nh = false →
       routing_insert_arp_safe fal s lle false = s) ∧
    (∀ nh i, nextu_find_path_using_ifp cover lle.ifindex = some (nh, i) →
       nh_is_connected nh = true →
       nexthop_lookup s.nht
         (nhKeyOfList RTPROT_UNSPEC (neighCreatedCopy cover lle i)) = none →
       s.nht.inUse ≠ NEXTHOP_HASH_TBL_SIZE →
       ∃ g', (routing_insert_arp_safe fal s lle false).nht.entry
               s.nht.rover = some g' ∧
         g'.siblings = neighCreatedCopy cover lle i ∧ g'.refcount = 1 ∧
         (lle.addr, 32, RT_SCOPE_LINK, s.nht.rover) ∈
           lpmShape (routing_insert_arp_safe fal s lle false).lpm) := by
  refine ⟨?_, ?_, ?_⟩
  · intro hfind
    simp [routing_insert_arp_safe, hex, route_create_arp, hlk, hcov, hfind]
  · intro nh i hfind hconn
    simp [routing_insert_arp_safe, hex, route_create_arp, hlk, hcov, hfind,
          hconn]
  · intro nh i hfind hconn hfresh hsp
    have hr := route_nexthop_new_fresh fal
      { s with nht := { s.nht with neighCreated := s.nht.neighCreated + 1 } }
      (neighCreatedCopy cover lle i) RTPROT_UNSPEC hfresh hsp
    simp only [routing_insert_arp_safe, hex, route_create_arp, hlk, hcov,
               hfind, hconn, if_true]
    rw [show (cover.siblings.mapIdx (fun j n =>
          if j = i then
            { n with flags := { n.flags with neighCreated := true },
                     lle := some lle, gateway := lle.addr }
          else n)) = neighCreatedCopy cover lle i from rfl]
    rw [hr]
    dsimp only
    rw [if_neg (show ¬((0 : Int) < 0) by norm_num)]
    rw [if_neg (show ¬(false = true) by simp)]
    refine ⟨{ siblings := neighCreatedCopy cover lle i,
              proto := RTPROT_UNSPEC, index := s.nht.rover, refcount := 1,
              pdState := fal_state_to_pd_state fal.newNextHopsStatus,
              nhgFal := fal.nhgObj,
              nhFal := List.replicate (neighCreatedCopy cover lle i).length
                fal.nhObj }, ?_, rfl, rfl, ?_⟩
    · rw [route_lpm_add_nht]
      simp
    · refine route_lpm_add_shape_mem fal _ lle.addr 32 s.nht.rover
        RT_SCOPE_LINK
        { siblings := neighCreatedCopy cover lle i, proto := RTPROT_UNSPEC,
          index := s.nht.rover, refcount := 1,
          pdState := fal_state_to_pd_state fal.newNextHopsStatus,
          nhgFal := fal.nhgObj,
          nhFal := List.replicate (neighCreatedCopy cover lle i).length
            fal.nhObj } ?_
      show Function.update s.nht.entry s.nht.rover _ s.nht.rover = some _
      rw [Function.update_same]

def gC6b : NextHopU :=
  { siblings := [{ gateway := 0, flags := {}, ifp := some 2 }], proto := 3,
    index := 1, refcount := 1, pdState := .Full, nhgFal := 0, nhFal := [0] }

def sC6b : RtState :=
  mkRtState
    { entry := fun i => if i = 1 then some gC6b else none, inUse := 1,
      rover := 2, hash := [(gC6b.key, 1)], neighPresent := 0,
      neighCreated := 0 }
    [{ ip := 0x0a000000, depth := 24, scope := 0, nh := 1 }]

def c6LleB : Llentry := ⟨0x0a000009, 2⟩

theorem c6_create_arp_witness :
    lpm_lookup_exact sC6b.lpm 0x0a000009 32 = none ∧
    lpm_lookup sC6b.lpm 0x0a000009 = some 1 ∧
    sC6b.nht.entry 1 = some gC6b ∧
    ((nextu_find_path_using_ifp gC6b c6LleB.ifindex = none →
        routing_insert_arp_safe c6Fal sC6b c6LleB false = sC6b) ∧
     (∀ nh i, nextu_find_path_using_ifp gC6b c6LleB.ifindex = some (nh, i) →
        nh_is_connected nh = false →
        routing_insert_arp_safe c6Fal sC6b c6LleB false = sC6b) ∧
     (∀ nh i, nextu_find_path_using_ifp gC6b c6LleB.ifindex = some (nh, i) →
        nh_is_connected nh = true →
        nexthop_lookup sC6b.nht
          (nhKeyOfList RTPROT_UNSPEC (neighCreatedCopy gC6b c6LleB i)) =
          none →
        sC6b.nht.inUse ≠ NEXTHOP_HASH_TBL_SIZE →
        ∃ g', (routing_insert_arp_safe c6Fal sC6b c6LleB false).nht.entry
                sC6b.nht.rover = some g' ∧
          g'.siblings = neighCreatedCopy gC6b c6LleB i ∧ g'.refcount = 1 ∧
          (c6LleB.addr, 32, RT_SCOPE_LINK, sC6b.nht.rover) ∈
            lpmShape (routing_insert_arp_safe c6Fal sC6b c6LleB false).lpm)) :=
  ⟨by decide, by decide, rfl,
   c6_create_arp_first_match c6Fal sC6b c6LleB 1 gC6b (by decide) (by decide)
     rfl⟩

/-! ### C5 — replace-in-place of a next-hop group -/

theorem mapIdx_eq_self {α : Type} (l : List α) (f : Nat → α → α)
    (h : ∀ j a, l[j]? = some a → f j a = a) : l.mapIdx f = l := by
  induction l generalizing f with
  | nil => rfl
  | cons a t ih =>
    rw [List.mapIdx_cons, h 0 a (by simp)]
    congr 1
    apply ih
    intro j b hj
    exact h (j + 1) b (by simpa using hj)

/-- Does a callback verdict change the sibling? -/
def isChange (c : NhChange) : Bool := decide (¬ c = .noChange)

/-- The copy loop, when the callback never deletes, copies every sibling
with its mutation applied; the neigh counters change by some amount and
nothing is marked failed or deleted. -/
theorem replaceLoop_no_del (lle : Option Llentry)
    (cb : NextHop → Nat → NhChange) :
    ∀ (sibs : List NextHop) (i : Nat) (acc : ReplaceAcc),
      (∀ j nh', sibs[j]? = some nh' → cb nh' (i + j) ≠ .del) →
      ∃ np nc, replaceLoop lle cb false sibs i acc =
        { newSibs := acc.newSibs ++
            sibs.mapIdx (fun j n => applyNhChange lle (cb n (i + j)) n),
          anyChange := acc.anyChange ||
            (sibs.mapIdx (fun j n => cb n (i + j))).any isChange,
          deleted := acc.deleted, np := np, nc := nc,
          failed := acc.failed } := by
  intro sibs
  induction sibs with
  | nil =>
    intro i acc h
    exact ⟨acc.np, acc.nc, by simp [replaceLoop]⟩
  | cons nh rest ih =>
    intro i acc h
    have h0 : cb nh i ≠ .del := by
      have := h 0 nh (by simp)
      simpa using this
    have hshift : ∀ j nh', rest[j]? = some nh' →
        cb nh' (i + 1 + j) ≠ .del := by
      intro j nh' hj
      have hx := h (j + 1) nh' (by simpa using hj)
      rw [show i + (j + 1) = i + 1 + j by omega] at hx
      exact hx
    have hadd : ∀ j : Nat, i + 1 + j = i + (j + 1) := fun j => by omega
    rcases hc : cb nh i with _ | _ | _ | _ | _ | _
    case del => exact absurd hc h0
    all_goals (
      simp only [replaceLoop, hc]
      obtain ⟨np, nc, hrec⟩ := ih (i + 1) _ hshift
      refine ⟨np, nc, ?_⟩
      rw [hrec]
      simp [hc, hadd, Bool.or_assoc, isChange])

theorem all_noChange_of_any_false (cb : NextHop → Nat → NhChange)
    (sibs : List NextHop)
    (h : (sibs.mapIdx (fun j n => cb n j)).any isChange = false) :
    ∀ j nh', sibs[j]? = some nh' → cb nh' j = .noChange := by
  intro j nh' hj
  have hmem : cb nh' j ∈ sibs.mapIdx (fun j n => cb n j) := by
    apply List.getElem?_mem (n := j)
    rw [List.getElem?_mapIdx]
    simp [hj]
  have := List.any_eq_false.mp h _ hmem
  simpa [isChange] using this

/-- C5: a neighbour-link mutation (no path delete) publishes a
replacement group at the same slot with the index, refcount, proto and
the FAL handles of the old group, whose siblings are exactly the old
ones with the callback's mutation applied; no FAL call is made and no
other part of the state is touched. -/
theorem c5_replace_in_place (fal : FalEnv) (s : RtState) (nhIdx : Nat)
    (lle : Option Llentry) (cb : NextHop → Nat → NhChange)
    (nextu : NextHopU) (hg : s.nht.entry nhIdx = some nextu)
    (hnd : ∀ j nh', nextu.siblings[j]? = some nh' → cb nh' j ≠ .del)
    (huniq : ∀ p ∈ s.nht.hash,
      p.1 = nhKeyOfList nextu.proto
        (nextu.siblings.mapIdx (fun j n => applyNhChange lle (cb n j) n)) →
      p.2 = nhIdx) :
    (route_nh_replace fal s nhIdx lle false cb).1 = 0 ∧
    (∃ g', (route_nh_replace fal s nhIdx lle false cb).2.2.nht.entry nhIdx =
        some g' ∧
      g'.index = nextu.index ∧ g'.refcount = nextu.refcount ∧
      g'.proto = nextu.proto ∧
      g'.nhgFal = nextu.nhgFal ∧ g'.nhFal = nextu.nhFal ∧
      g'.siblings =
        nextu.siblings.mapIdx (fun j n => applyNhChange lle (cb n j) n)) ∧
    (route_nh_replace fal s nhIdx lle false cb).2.2.calls = s.calls ∧
    (route_nh_replace fal s nhIdx lle false cb).2.2.lpm = s.lpm ∧
    (route_nh_replace fal s nhIdx lle false cb).2.2.swStats = s.swStats ∧
    (route_nh_replace fal s nhIdx lle false cb).2.2.hwStats = s.hwStats := by
  obtain ⟨np, nc, hloop⟩ := replaceLoop_no_del lle cb nextu.siblings 0 {}
    (fun j nh' hj => by simpa using hnd j nh' hj)
  simp only [Nat.zero_add] at hloop
  rcases hch : (nextu.siblings.mapIdx (fun j n => cb n j)).any isChange with
    _ | _
  · -- no sibling changes: the old group remains and already satisfies
    -- the specification (the mutation map is the identity)
    have hid : nextu.siblings.mapIdx
        (fun j n => applyNhChange lle (cb n j) n) = nextu.siblings := by
      apply mapIdx_eq_self
      intro j a hj
      rw [all_noChange_of_any_false cb nextu.siblings hch j a hj]
      rfl
    simp only [route_nh_replace, hg, hloop]
    simp only [Bool.false_or, hch]
    simp [hg, hid]
  · -- some sibling actually changes: the new group is published
    have hhash : ((s.nht.hash.filter (fun p => !decide (p.2 = nhIdx))).any
        (fun p => decide (p.1 = nhKeyOfList nextu.proto
          (nextu.siblings.mapIdx
            (fun j n => applyNhChange lle (cb n j) n))))) = false := by
      rw [List.any_eq_false]
      intro p hp
      rcases List.mem_filter.mp hp with ⟨hpmem, hpne⟩
      simp only [Bool.not_eq_eq_eq_not, Bool.not_true, decide_eq_false_iff_not]
        at hpne
      simp only [decide_eq_true_eq]
      intro hkey
      exact hpne (huniq p hpmem hkey)
    simp only [route_nh_replace, hg, hloop]
    simp only [Bool.false_or, hch]
    simp [Function.update_same, hhash]

def gC5 : NextHopU :=
  { siblings := [{ gateway := 0x0a000002,
                   flags := { gateway := true }, ifp := some 4 }],
    proto := 2, index := 5, refcount := 3, pdState := .Full, nhgFal := 77,
    nhFal := [88] }

def sC5 : RtState :=
  mkRtState
    { entry := fun i => if i = 5 then some gC5 else none, inUse := 1,
      rover := 6, hash := [(gC5.key, 5)], neighPresent := 0,
      neighCreated := 0 }
    []

def c5Lle : Llentry := ⟨0x0a000002, 4⟩

def c5Cb : NextHop → Nat → NhChange := fun _ _ => .setNeighPresent

theorem c5_replace_in_place_witness :
    sC5.nht.entry 5 = some gC5 ∧
    (∀ j nh', gC5.siblings[j]? = some nh' → c5Cb nh' j ≠ .del) ∧
    (∀ p ∈ sC5.nht.hash,
      p.1 = nhKeyOfList gC5.proto
        (gC5.siblings.mapIdx
          (fun j n => applyNhChange (some c5Lle) (c5Cb n j) n)) →
      p.2 = 5) ∧
    ((route_nh_replace {} sC5 5 (some c5Lle) false c5Cb).1 = 0 ∧
     (∃ g', (route_nh_replace {} sC5 5 (some c5Lle) false
         c5Cb).2.2.nht.entry 5 = some g' ∧
       g'.index = gC5.index ∧ g'.refcount = gC5.refcount ∧
       g'.proto = gC5.proto ∧
       g'.nhgFal = gC5.nhgFal ∧ g'.nhFal = gC5.nhFal ∧
       g'.siblings = gC5.siblings.mapIdx
         (fun j n => applyNhChange (some c5Lle) (c5Cb n j) n)) ∧
     (route_nh_replace {} sC5 5 (some c5Lle) false c5Cb).2.2.calls =
       sC5.calls ∧
     (route_nh_replace {} sC5 5 (some c5Lle) false c5Cb).2.2.lpm =
       sC5.lpm ∧
     (route_nh_replace {} sC5 5 (some c5Lle) false c5Cb).2.2.swStats =
       sC5.swStats ∧
     (route_nh_replace {} sC5 5 (some c5Lle) false c5Cb).2.2.hwStats =
       sC5.hwStats) :=
  ⟨rfl, fun _ _ _ => by simp [c5Cb],
   fun p hp _ => by
     simp only [sC5, mkRtState, List.mem_singleton] at hp
     simp [hp],
   c5_replace_in_place {} sC5 5 (some c5Lle) c5Cb gC5 rfl
     (fun _ _ _ => by simp [c5Cb])
     (fun p hp _ => by
       simp only [sC5, mkRtState, List.mem_singleton] at hp
       simp [hp])⟩

/-! ### C3 — interning, refcounts and release -/

/-- `n` successive interns of the same sibling list. -/
def internN (fal : FalEnv) (nh : List NextHop) (proto : Nat) :
    Nat → NhTable → NhTable
  | 0, s => s
  | n + 1, s => internN fal nh proto n (nexthop_new fal nh proto s).tbl

/-- `n` successive releases of the same index. -/
def putN : Nat → Nat → NhTable → NhTable
  | 0, _, s => s
  | n + 1, idx, s => putN n idx (nexthop_put idx s).1

/-- The table after the sibling list `nh` was interned (at the rover of
`s0`) and is held `m` times. -/
def internState (fal : FalEnv) (nh : List NextHop) (proto : Nat)
    (s0 : NhTable) (m : Nat) : NhTable :=
  { s0 with
    entry := Function.update s0.entry s0.rover (some
      { siblings := nh, proto := proto, index := s0.rover, refcount := m,
        pdState := fal_state_to_pd_state fal.newNextHopsStatus,
        nhgFal := fal.nhgObj,
        nhFal := List.replicate nh.length fal.nhObj }),
    rover := roverScan s0.entry s0.rover, inUse := s0.inUse + 1,
    hash := (nhKeyOfList proto nh, s0.rover) :: s0.hash }

/-- The table after the last holder released the interned group. -/
def internFreed (fal : FalEnv) (nh : List NextHop) (proto : Nat)
    (s0 : NhTable) : NhTable :=
  { entry := Function.update s0.entry s0.rover none,
    inUse := s0.inUse + 1 - 1,
    rover := roverScan s0.entry s0.rover,
    hash := s0.hash.filter (fun p => decide (p.2 ≠ s0.rover)),
    neighPresent := s0.neighPresent -
      ((nh.filter (fun x => nh4_is_neigh_present x)).length : Int),
    neighCreated := s0.neighCreated -
      ((nh.filter (fun x => nh4_is_neigh_created x)).length : Int) }

theorem internState_lookup (fal : FalEnv) (nh : List NextHop) (proto : Nat)
    (s0 : NhTable) (m : Nat) :
    nexthop_lookup (internState fal nh proto s0 m)
      (nhKeyOfList proto nh) = some s0.rover := by
  simp [nexthop_lookup, internState]

/-- A further intern of any sibling list with the same cmp-mask key —
the lists may differ in NEIGH_PRESENT/NEIGH_CREATED/DEAD flags or in
the linked neighbour entry — only bumps the held group's refcount; the
stored siblings stay those of the first intern. -/
theorem intern_again (fal : FalEnv) (nh nh' : List NextHop) (proto : Nat)
    (s0 : NhTable) (m : Nat)
    (hkeq : nhKeyOfList proto nh' = nhKeyOfList proto nh) :
    nexthop_new fal nh' proto (internState fal nh proto s0 (m + 1)) =
      { rc := 0, slot := s0.rover,
        tbl := internState fal nh proto s0 (m + 2), calls := [] } := by
  have hlk : nexthop_lookup (internState fal nh proto s0 (m + 1))
      (nhKeyOfList proto nh') = some s0.rover := by
    rw [hkeq]
    exact internState_lookup fal nh proto s0 (m + 1)
  rw [nexthop_new_reuse fal nh' proto _ _ hlk]
  simp [internState, Function.update_idem, Function.update_same]

theorem internN_hold (fal : FalEnv) (nh nh' : List NextHop) (proto : Nat)
    (s0 : NhTable)
    (hkeq : nhKeyOfList proto nh' = nhKeyOfList proto nh) :
    ∀ n m, internN fal nh' proto n (internState fal nh proto s0 (m + 1)) =
      internState fal nh proto s0 (m + 1 + n) := by
  intro n
  induction n with
  | zero => intro m; rfl
  | succ n ih =>
    intro m
    show internN fal nh' proto n
      (nexthop_new fal nh' proto (internState fal nh proto s0 (m + 1))).tbl = _
    rw [intern_again fal nh nh' proto s0 m hkeq]
    have := ih (m + 1)
    rw [show m + 1 + 1 = m + 2 by omega] at this
    rw [this]
    rw [show m + 2 + n = m + 1 + (n + 1) by omega]

/-- Releasing a multiply-held group decrements its refcount. -/
theorem put_step (fal : FalEnv) (nh : List NextHop) (proto : Nat)
    (s0 : NhTable) (m : Nat) :
    nexthop_put s0.rover (internState fal nh proto s0 (m + 2)) =
      (internState fal nh proto s0 (m + 1), []) := by
  unfold nexthop_put
  rw [show (internState fal nh proto s0 (m + 2)).entry s0.rover = some
    { siblings := nh, proto := proto, index := s0.rover, refcount := m + 2,
      pdState := fal_state_to_pd_state fal.newNextHopsStatus,
      nhgFal := fal.nhgObj,
      nhFal := List.replicate nh.length fal.nhObj } from by
      simp [internState]]
  simp [internState, Function.update_idem]

/-- Releasing the last holder empties the slot, removes the hash entry
and deletes the FAL group (when fully offloaded). -/
theorem put_last (fal : FalEnv) (nh : List NextHop) (proto : Nat)
    (s0 : NhTable) :
    nexthop_put s0.rover (internState fal nh proto s0 1) =
      (internFreed fal nh proto s0,
       if fal_state_to_pd_state fal.newNextHopsStatus = .Full then
         [FalCall.delNextHops fal.nhgObj]
       else []) := by
  unfold nexthop_put
  rw [show (internState fal nh proto s0 1).entry s0.rover = some
    { siblings := nh, proto := proto, index := s0.rover, refcount := 1,
      pdState := fal_state_to_pd_state fal.newNextHopsStatus,
      nhgFal := fal.nhgObj,
      nhFal := List.replicate nh.length fal.nhObj } from by
      simp [internState]]
  simp only [internState, internFreed]
  simp [Function.update_idem]

theorem putN_drain (fal : FalEnv) (nh : List NextHop) (proto : Nat)
    (s0 : NhTable) :
    ∀ n, putN (n + 1) s0.rover (internState fal nh proto s0 (n + 1)) =
      internFreed fal nh proto s0 := by
  intro n
  induction n with
  | zero =>
    show putN 0 s0.rover
      (nexthop_put s0.rover (internState fal nh proto s0 1)).1 = _
    rw [put_last]
    rfl
  | succ n ih =>
    show putN (n + 1) s0.rover
      (nexthop_put s0.rover (internState fal nh proto s0 (n + 2))).1 = _
    rw [put_step]
    exact ih

/-- C3: a second intern request whose sibling list equals the first's
under the cmp-mask key — same proto and same ordered
{ifindex, gateway, flags ∩ cmp-mask, label-stack} tuples, the lists
themselves possibly differing in the masked-out NEIGH_PRESENT /
NEIGH_CREATED / DEAD flags or the linked neighbour entry — returns the
index of the first intern and bumps the refcount instead of allocating
a slot; after `n` such further interns the refcount is `n + 1` (the
number of holders) and the stored siblings are still the first
request's; after as many releases the slot is empty, the key is gone
from the hash and the table can intern afresh. -/
theorem c3_intern_refcount_release (fal : FalEnv) (nh nh' : List NextHop)
    (proto : Nat) (s0 : NhTable) (n : Nat)
    (hkeq : nhKeyOfList proto nh' = nhKeyOfList proto nh)
    (hkey : nexthop_lookup s0 (nhKeyOfList proto nh) = none)
    (hsp : s0.inUse ≠ NEXTHOP_HASH_TBL_SIZE) :
    (nexthop_new fal nh proto s0).rc = 0 ∧
    (nexthop_new fal nh proto s0).slot = s0.rover ∧
    (nexthop_new fal nh' proto (nexthop_new fal nh proto s0).tbl).rc = 0 ∧
    (nexthop_new fal nh' proto (nexthop_new fal nh proto s0).tbl).slot =
      (nexthop_new fal nh proto s0).slot ∧
    (nexthop_new fal nh' proto (nexthop_new fal nh proto s0).tbl).calls =
      [] ∧
    (∃ g, (internN fal nh' proto n (nexthop_new fal nh proto s0).tbl).entry
        s0.rover = some g ∧ g.refcount = n + 1 ∧ g.siblings = nh) ∧
    (internN fal nh' proto n (nexthop_new fal nh proto s0).tbl).inUse =
      s0.inUse + 1 ∧
    (putN (n + 1) s0.rover
        (internN fal nh' proto n (nexthop_new fal nh proto s0).tbl)).entry
      s0.rover = none ∧
    nexthop_lookup
      (putN (n + 1) s0.rover
        (internN fal nh' proto n (nexthop_new fal nh proto s0).tbl))
      (nhKeyOfList proto nh) = none ∧
    (putN (n + 1) s0.rover
        (internN fal nh' proto n (nexthop_new fal nh proto s0).tbl)).inUse =
      s0.inUse ∧
    (nexthop_new fal nh proto
      (putN (n + 1) s0.rover
        (internN fal nh' proto n (nexthop_new fal nh proto s0).tbl))).rc =
      0 := by
  have h1 : nexthop_new fal nh proto s0 =
      { rc := 0, slot := s0.rover, tbl := internState fal nh proto s0 1,
        calls := [FalCall.newNextHops nh] } := by
    rw [nexthop_new_fresh fal nh proto s0 hkey hsp]
    rfl
  have hN := internN_hold fal nh nh' proto s0 hkeq n 0
  rw [show 0 + 1 + n = n + 1 by omega] at hN
  have hdrain := putN_drain fal nh proto s0 n
  have hfind : s0.hash.find?
      (fun p => decide (p.1 = nhKeyOfList proto nh)) = none := by
    unfold nexthop_lookup at hkey
    exact Option.map_eq_none'.mp hkey
  have hnomatch : ∀ p ∈ s0.hash.filter (fun p => decide (p.2 ≠ s0.rover)),
      ¬ ((fun p => decide (p.1 = nhKeyOfList proto nh)) p = true) := by
    intro p hp
    exact List.find?_eq_none.mp hfind p (List.mem_filter.mp hp).1
  have hfreedlk : nexthop_lookup (internFreed fal nh proto s0)
      (nhKeyOfList proto nh) = none := by
    simp only [nexthop_lookup, internFreed]
    rw [List.find?_eq_none.mpr hnomatch]
    rfl
  have hfreedsp : (internFreed fal nh proto s0).inUse ≠
      NEXTHOP_HASH_TBL_SIZE := by
    show s0.inUse + 1 - 1 ≠ _
    simpa using hsp
  refine ⟨by rw [h1], by rw [h1], ?_, ?_, ?_, ?_, ?_, ?_, ?_, ?_, ?_⟩
  · rw [h1]
    show (nexthop_new fal nh' proto (internState fal nh proto s0 (0 + 1))).rc = 0
    rw [intern_again fal nh nh' proto s0 0 hkeq]
  · rw [h1]
    show (nexthop_new fal nh' proto
      (internState fal nh proto s0 (0 + 1))).slot = s0.rover
    rw [intern_again fal nh nh' proto s0 0 hkeq]
  · rw [h1]
    show (nexthop_new fal nh' proto
      (internState fal nh proto s0 (0 + 1))).calls = []
    rw [intern_again fal nh nh' proto s0 0 hkeq]
  · rw [h1]
    show ∃ g, (internN fal nh' proto n
      (internState fal nh proto s0 1)).entry s0.rover = some g ∧ _
    rw [show (1 : Nat) = 0 + 1 by omega, hN]
    have hent : (internState fal nh proto s0 (n + 1)).entry s0.rover = some
        { siblings := nh, proto := proto, index := s0.rover,
          refcount := n + 1,
          pdState := fal_state_to_pd_state fal.newNextHopsStatus,
          nhgFal := fal.nhgObj,
          nhFal := List.replicate nh.length fal.nhObj } := by
      simp [internState]
    exact ⟨_, hent, rfl, rfl⟩
  · rw [h1]
    show (internN fal nh' proto n
      (internState fal nh proto s0 1)).inUse = s0.inUse + 1
    rw [show (1 : Nat) = 0 + 1 by omega, hN]
    rfl
  · rw [h1]
    show (putN (n + 1) s0.rover (internN fal nh' proto n
      (internState fal nh proto s0 1))).entry s0.rover = none
    rw [show (1 : Nat) = 0 + 1 by omega, hN, hdrain]
    simp [internFreed]
  · rw [h1]
    show nexthop_lookup (putN (n + 1) s0.rover (internN fal nh' proto n
      (internState fal nh proto s0 1))) (nhKeyOfList proto nh) = none
    rw [show (1 : Nat) = 0 + 1 by omega, hN, hdrain]
    exact hfreedlk
  · rw [h1]
    show (putN (n + 1) s0.rover (internN fal nh' proto n
      (internState fal nh proto s0 1))).inUse = s0.inUse
    rw [show (1 : Nat) = 0 + 1 by omega, hN, hdrain]
    show s0.inUse + 1 - 1 = s0.inUse
    omega
  · rw [h1]
    show (nexthop_new fal nh proto (putN (n + 1) s0.rover
      (internN fal nh' proto n (internState fal nh proto s0 1)))).rc = 0
    rw [show (1 : Nat) = 0 + 1 by omega, hN, hdrain]
    rw [nexthop_new_fresh fal nh proto _ hfreedlk hfreedsp]

def c3Sib : NextHop :=
  { gateway := 0x0a000042, flags := { gateway := true }, ifp := some 7 }

/-- A different sibling for the later intern requests: NEIGH_PRESENT and
DEAD are set and a neighbour entry is linked, so the list differs from
`[c3Sib]` — but ifindex, gateway, masked flags and labels agree, so the
cmp-mask key is the same. -/
def c3SibB : NextHop :=
  { gateway := 0x0a000042,
    flags := { gateway := true, neighPresent := true, dead := true },
    ifp := some 7, lle := some ⟨0x0a000042, 7⟩ }

def c3Tbl : NhTable := NhTable.empty

theorem c3_intern_refcount_release_witness :
    c3SibB ≠ c3Sib ∧
    nhKeyOfList 2 [c3SibB] = nhKeyOfList 2 [c3Sib] ∧
    nexthop_lookup c3Tbl (nhKeyOfList 2 [c3Sib]) = none ∧
    c3Tbl.inUse ≠ NEXTHOP_HASH_TBL_SIZE ∧
    ((nexthop_new {} [c3Sib] 2 c3Tbl).rc = 0 ∧
     (nexthop_new {} [c3Sib] 2 c3Tbl).slot = c3Tbl.rover ∧
     (nexthop_new {} [c3SibB] 2 (nexthop_new {} [c3Sib] 2 c3Tbl).tbl).rc =
       0 ∧
     (nexthop_new {} [c3SibB] 2
       (nexthop_new {} [c3Sib] 2 c3Tbl).tbl).slot =
       (nexthop_new {} [c3Sib] 2 c3Tbl).slot ∧
     (nexthop_new {} [c3SibB] 2
       (nexthop_new {} [c3Sib] 2 c3Tbl).tbl).calls = [] ∧
     (∃ g, (internN {} [c3SibB] 2 2
         (nexthop_new {} [c3Sib] 2 c3Tbl).tbl).entry c3Tbl.rover = some g ∧
       g.refcount = 2 + 1 ∧ g.siblings = [c3Sib]) ∧
     (internN {} [c3SibB] 2 2
       (nexthop_new {} [c3Sib] 2 c3Tbl).tbl).inUse = c3Tbl.inUse + 1 ∧
     (putN (2 + 1) c3Tbl.rover
         (internN {} [c3SibB] 2 2
           (nexthop_new {} [c3Sib] 2 c3Tbl).tbl)).entry c3Tbl.rover =
       none ∧
     nexthop_lookup
       (putN (2 + 1) c3Tbl.rover
         (internN {} [c3SibB] 2 2 (nexthop_new {} [c3Sib] 2 c3Tbl).tbl))
       (nhKeyOfList 2 [c3Sib]) = none ∧
     (putN (2 + 1) c3Tbl.rover
       (internN {} [c3SibB] 2 2
         (nexthop_new {} [c3Sib] 2 c3Tbl).tbl)).inUse = c3Tbl.inUse ∧
     (nexthop_new {} [c3Sib] 2
       (putN (2 + 1) c3Tbl.rover
         (internN {} [c3SibB] 2 2
           (nexthop_new {} [c3Sib] 2 c3Tbl).tbl))).rc = 0) :=
  ⟨by decide, by decide, rfl, by decide,
   c3_intern_refcount_release {} [c3Sib] [c3SibB] 2 c3Tbl 2 (by decide)
     rfl (by decide)⟩

end Dataplane
